import Mathlib

/-!
# Demo-Api: record services with external asset synchronisation

A shallow embedding of `src/services/testService.js` and
`src/services/userService.js`.

The services are sequences of calls to three collaborators whose code is not
part of the repository: the document database (mongoose), the asset service
(cloudinary) and the password hasher (bcrypt).  The database collections and
the asset service are modelled as explicit state (`Store`); every answer that
is decided by a collaborator and not by the services is a field of `Env`.
Each `async` function becomes a function from the store to its settled result
(`Except`) together with the store it leaves behind, so that effects of a call
that ends in a rejection stay visible.  The members of a `Promise.all` are all
started: each has its effect whether or not another member is rejected.  Id
strings are read by the database as `ObjectId`s (`Env.castId`); uploads, the
asset service's delete call and every database write can be rejected, while
the lookups are taken to resolve.
-/

set_option autoImplicit false

namespace DemoApi

/-! ## Data model -/

/-- One entry of a record's `image` array, as built in the `req.files.map`
callbacks of both services. -/
structure Image where
  public_id : String
  url : String
  originalname : String
deriving DecidableEq, Repr

/-- An uploaded attachment as handed over by the multipart middleware
(`req.files[i]`); only the three properties read by the services. -/
structure File where
  path : String
  filename : String
  originalname : String
deriving DecidableEq, Repr

/-- The three shapes of `req.files` the services distinguish with
`req.files && Array.isArray(req.files)`. -/
inductive Files where
  | absent
  | notArray
  | array (files : List File)
deriving DecidableEq, Repr

/-- The value `cloudinary.uploader.upload` resolves with; only the two
properties read by the services. -/
structure UploadResult where
  public_id : String
  url : String
deriving DecidableEq, Repr

/-- An `ObjectId` of the database.  Two id strings that the database reads as
the same `ObjectId`, such as the upper-case and the lower-case spelling of the
same 24 hexadecimal digits, are one value of this type (see `Env.castId`). -/
structure ObjectId where
  hex : String
deriving DecidableEq, Repr

/-- A document of the `Test` collection: the fields the service reads and
writes (`models/test.js` is not among the sources). -/
structure TestDoc where
  _id : ObjectId
  test : String
  image : List Image
deriving DecidableEq, Repr

/-- The `req.body` of the test routes.  `test` is a required field (checked by
the controller before the service runs); `image` is whatever the client put
under the key `image`, if anything. -/
structure TestBody where
  test : String
  image : Option (List Image)
deriving DecidableEq, Repr

/-- The part of the request read by the test service. -/
structure TestReq where
  body : TestBody
  files : Files
deriving DecidableEq, Repr

/-- The three shapes of `req.body.roles` told apart by the user service:
falsy (absent or the empty string), a non-empty string, an array. -/
inductive RolesField where
  | absent
  | str (s : String)
  | arr (roles : List String)
deriving DecidableEq, Repr

/-- A document of the `User` collection: the fields the service reads and
writes (`models/user.js` is not among the sources). -/
structure UserDoc where
  _id : ObjectId
  name : String
  email : String
  password : String
  roles : List String
  image : List Image
deriving DecidableEq, Repr

/-- The `req.body` of the user routes. -/
structure UserBody where
  name : String
  email : String
  password : String
  roles : RolesField
  image : Option (List Image)
deriving DecidableEq, Repr

/-- The part of the request read by the user service. -/
structure UserReq where
  body : UserBody
  files : Files
deriving DecidableEq, Repr

/-- Modelled from the spec: `models/product.js` is not among the sources; a
dependent record of the catalog collection, carrying the foreign key `user`
that `Products.deleteMany` filters on. -/
structure ProductDoc where
  _id : ObjectId
  user : ObjectId
deriving DecidableEq, Repr

/-- A document of the `Transaction` collection (`models/transaction.js`). -/
structure TransactionDoc where
  _id : ObjectId
  user : ObjectId
  product : List ObjectId
  status : String
  date : String
deriving DecidableEq, Repr

/-- A call received by the asset service. -/
inductive AssetCall where
  | upload (path : String) (public_id : String)
  | delete_resources (public_ids : List String)
deriving DecidableEq, Repr

/-- A call that asks the database to change a collection. -/
inductive DbWrite where
  | createTest (doc : TestDoc)
  | createUser (doc : UserDoc)
  | updateTest (id : ObjectId) (update : TestDoc)
  | updateUser (id : ObjectId) (update : UserDoc)
  | deleteTest (id : ObjectId)
  | deleteUser (id : ObjectId)
  | deleteProducts (user : ObjectId)
  | deleteTransactions (user : ObjectId)
deriving DecidableEq, Repr

/-- What a service call can be rejected with.  `errorHandler` is
`throw new ErrorHandler(message)`; the other constructors are rejections that
come out of a collaborator: the pattern constructor, an upload, the asset
service's delete call, the schema validators, a database write. -/
inductive Failure where
  | errorHandler (message : String)
  | regExpSyntax
  | uploadRejected
  | deleteRejected
  | validation
  | databaseRejected
deriving DecidableEq, Repr

/-- The database collections, the content of the asset service and the calls
the asset service has received so far. -/
structure Store where
  tests : List TestDoc
  users : List UserDoc
  products : List ProductDoc
  transactions : List TransactionDoc
  assets : List String
  calls : List AssetCall
deriving DecidableEq, Repr

/-- The answers of the collaborators.
* `isValid`: `mongoose.Types.ObjectId.isValid`.
* `castId id`: the `ObjectId` the database reads the id string `id` as when it
  casts a query on `_id` or on the foreign key `user`; the services only query
  with strings that passed `isValid`.
* `writeResolves w`: whether the database carries out the write `w`; a rejected
  write leaves the collection as it was.  The lookups (`findOne`, `findById`)
  are taken to resolve.
* `collationEq a b`: whether the database finds a stored value `a` equal to the
  query value `b` under `.collation({ locale: "en" })`.
* `regExp src`: `new RegExp(src, "i")`, `none` when the constructor throws;
  the function is the match test of the resulting expression.
* `upload path public_id`: `cloudinary.uploader.upload(path, { public_id })`,
  `none` when it rejects.
* `deleteResolves ids`: whether `cloudinary.api.delete_resources(ids)` resolves.
* `validTest`, `validUser`: the schema validators (`models/test.js` and
  `models/user.js` are not among the sources).
* `newId`: the identifier the database gives to a created document.
* `hash`: `bcrypt.hash(_, Number(process.env.SALT_NUMBER))`.
* `customer`: the constant `ROLE.CUSTOMER`. -/
structure Env where
  isValid : String → Bool
  castId : String → ObjectId
  writeResolves : DbWrite → Bool
  collationEq : String → String → Bool
  regExp : String → Option (String → Bool)
  upload : String → String → Option UploadResult
  deleteResolves : List String → Bool
  validTest : TestDoc → Bool
  validUser : UserDoc → Bool
  newId : List ObjectId → ObjectId
  hash : String → String
  customer : String

/-- Modelled from the spec: `constants/index.js` is not among the sources;
`STATUSCODE.ZERO` is the length of an empty attachment list. -/
def STATUSCODE_ZERO : Nat := 0

/-! ## Asset service -/

/-- The body of one `req.files.map` callback: the upload is requested, and when
it resolves the asset service holds the returned `public_id` and the callback
yields the image entry. -/
def uploadFile (env : Env) (file : File) (s : Store) : Option Image × Store :=
  match env.upload file.path file.filename with
  | none =>
    (none, { s with calls := s.calls ++ [AssetCall.upload file.path file.filename] })
  | some result =>
    (some { public_id := result.public_id, url := result.url,
            originalname := file.originalname },
     { s with calls := s.calls ++ [AssetCall.upload file.path file.filename],
              assets := result.public_id :: s.assets })

/-- The expression `Promise.all(req.files.map(...))`: every upload is started,
the entries come back in the order of the files, and the whole is rejected as
soon as one upload is. -/
def uploadAll (env : Env) : List File → Store → Option (List Image) × Store
  | [], s => (some [], s)
  | file :: rest, s =>
    let first := uploadFile env file s
    let others := uploadAll env rest first.2
    (match first.1, others.1 with
      | some image, some images => some (image :: images)
      | _, _ => none,
     others.2)

/-- The call `cloudinary.api.delete_resources(ids)`: when it resolves, none of
the listed identifiers is held by the asset service any more; a rejected call
leaves the content of the asset service as it was. -/
def delete_resources (env : Env) (ids : List String) (s : Store) : Bool × Store :=
  if env.deleteResolves ids then
    (true, { s with calls := s.calls ++ [AssetCall.delete_resources ids],
                    assets := s.assets.filter (fun a => !ids.contains a) })
  else
    (false, { s with calls := s.calls ++ [AssetCall.delete_resources ids] })

/-- The block `let image = []; if (req.files && Array.isArray(req.files))
{ image = await Promise.all(...) }` of both create functions: `none` when an
upload rejects. -/
def uploadedImages (env : Env) (files : Files) (s : Store) : Option (List Image) × Store :=
  match files with
  | .array files => uploadAll env files s
  | _ => (some [], s)

/-- The block `let image = existing.image || []; if (req.files &&
Array.isArray(req.files) && req.files.length > 0) { image = await
Promise.all(...); await cloudinary.api.delete_resources(...) }` of both update
functions, `existing` being the image array of the stored record (an array is
truthy, so `existing.image || []` is that array). -/
def replacedImages (env : Env) (files : Files) (existing : List Image) (s : Store) :
    Except Failure (List Image) × Store :=
  match files with
  | .array (file :: files) =>
    let uploaded := uploadAll env (file :: files) s
    match uploaded.1 with
    | none => (.error .uploadRejected, uploaded.2)
    | some image =>
      let deleted := delete_resources env
        (existing.map (fun image => image.public_id)) uploaded.2
      if deleted.1 then (.ok image, deleted.2)
      else (.error .deleteRejected, deleted.2)
  | _ => (.ok existing, s)

/-! ## testService.js -/

/-- The object literal `{ ...req.body, image: image }` as the content of the
`Test` document `id`: `test` comes from the body, and the key `image` written
after the spread replaces the one the body may carry. -/
def testFields (id : ObjectId) (body : TestBody) (image : List Image) : TestDoc :=
  { _id := id, test := body.test, image := image }

/-- The service function `getSingleTestData`. -/
def getSingleTestData (env : Env) (id : String) (s : Store) : Except Failure TestDoc :=
  if !env.isValid id then
    .error (.errorHandler ("Invalid test ID: " ++ id))
  else
    match s.tests.find? (fun t => t._id == env.castId id) with
    | none => .error (.errorHandler ("Test not found with ID: " ++ id))
    | some test => .ok test

/-- The service function `createTestData`. -/
def createTestData (env : Env) (req : TestReq) (s : Store) : Except Failure TestDoc × Store :=
  match s.tests.find? (fun t => env.collationEq t.test req.body.test) with
  | some _ => (.error (.errorHandler "Duplicate test"), s)
  | none =>
    let uploaded := uploadedImages env req.files s
    match uploaded.1 with
    | none => (.error .uploadRejected, uploaded.2)
    | some image =>
      if image.length = STATUSCODE_ZERO then
        (.error (.errorHandler "At least one image is required"), uploaded.2)
      else
        let test : TestDoc :=
          testFields (env.newId (uploaded.2.tests.map (fun t => t._id))) req.body image
        if !env.validTest test then
          (.error .validation, uploaded.2)
        else if !env.writeResolves (.createTest test) then
          (.error .databaseRejected, uploaded.2)
        else
          (.ok test, { uploaded.2 with tests := uploaded.2.tests ++ [test] })

/-- The database call `Test.findByIdAndUpdate(id, update, { new: true,
runValidators: true })`: the validators run on the update, then the database
is asked; when it answers, the first document with the identifier is rewritten
and returned, `null` when there is none. -/
def testFindByIdAndUpdate (env : Env) (id : ObjectId) (update : TestDoc)
    (tests : List TestDoc) : Except Failure (Option TestDoc) × List TestDoc :=
  if !env.validTest update then
    (.error .validation, tests)
  else if !env.writeResolves (.updateTest id update) then
    (.error .databaseRejected, tests)
  else
    match tests.find? (fun t => t._id == id) with
    | none => (.ok none, tests)
    | some _ =>
      (.ok (some update), tests.map (fun t => if t._id == id then update else t))

/-- The service function `updateTestData`. -/
def updateTestData (env : Env) (req : TestReq) (id : String) (s : Store) :
    Except Failure TestDoc × Store :=
  if !env.isValid id then
    (.error (.errorHandler ("Invalid test ID: " ++ id)), s)
  else
    match s.tests.find? (fun t => t._id == env.castId id) with
    | none => (.error (.errorHandler ("Test not found with ID: " ++ id)), s)
    | some existingTest =>
      match env.regExp ("^" ++ req.body.test ++ "$") with
      | none => (.error .regExpSyntax, s)
      | some regex =>
        match s.tests.find? (fun t => regex t.test && t._id != env.castId id) with
        | some _ => (.error (.errorHandler "Duplicate test"), s)
        | none =>
          let replaced := replacedImages env req.files existingTest.image s
          match replaced.1 with
          | .error e => (.error e, replaced.2)
          | .ok image =>
            let written := testFindByIdAndUpdate env (env.castId id)
              (testFields (env.castId id) req.body image) replaced.2.tests
            match written.1 with
            | .error e => (.error e, replaced.2)
            | .ok none => (.error (.errorHandler ("Test not found with ID: " ++ id)), replaced.2)
            | .ok (some updatedTest) =>
              (.ok updatedTest, { replaced.2 with tests := written.2 })

/-- The database call `Test.deleteOne({ _id: id })`: when the database carries
it out, the first document with the identifier is gone. -/
def testDeleteOne (env : Env) (id : ObjectId) (s : Store) : Bool × Store :=
  if env.writeResolves (.deleteTest id) then
    (true, { s with tests := s.tests.eraseP (fun t => t._id == id) })
  else
    (false, s)

/-- The service function `deleteTestData`.  The two members of the
`Promise.all` are both started, so each has its effect whether or not the other
is rejected; the call is rejected when one of them is (the rejection reported
is that of the first rejected member of the array). -/
def deleteTestData (env : Env) (id : String) (s : Store) : Except Failure TestDoc × Store :=
  if !env.isValid id then
    (.error (.errorHandler ("Invalid test ID " ++ id)), s)
  else
    match s.tests.find? (fun t => t._id == env.castId id) with
    | none => (.error (.errorHandler ("Test not found with ID: " ++ id)), s)
    | some test =>
      let publicIds := test.image.map (fun image => image.public_id)
      let removed := testDeleteOne env (env.castId id) s
      let deleted := delete_resources env publicIds removed.2
      if !removed.1 then (.error .databaseRejected, deleted.2)
      else if !deleted.1 then (.error .deleteRejected, deleted.2)
      else (.ok test, deleted.2)

/-! ## userService.js -/

/-- The call `req.body.roles.split(", ")` on the characters of the string;
`current` holds, reversed, the characters of the piece being read. -/
def splitRoles : List Char → List Char → List String
  | [], current => [String.mk current.reverse]
  | ',' :: ' ' :: rest, current => String.mk current.reverse :: splitRoles rest []
  | c :: rest, current => splitRoles rest (c :: current)

/-- The value of `Array.isArray(req.body.roles) ? req.body.roles :
req.body.roles.split(", ")` when `req.body.roles` is truthy, `none` when it is
falsy. -/
def rolesOfBody : RolesField → Option (List String)
  | .absent => none
  | .str s => if s = "" then none else some (splitRoles s.toList [])
  | .arr roles => some roles

/-- The in-memory array `blacklistedTokens` as it is when the module is
loaded. -/
def blacklistedTokens : List String := []

/-- The `cookies` argument of `logoutUser`: `jwt` is `none` when the request
carries no cookie of that name. -/
structure Cookies where
  jwt : Option String
deriving DecidableEq, Repr

/-- What `logoutUser` leaves behind: how the returned promise settled, the
array of revoked tokens, and whether `res.clearCookie` was called. -/
structure Logout where
  settled : Except String Unit
  tokens : List String
  cookieCleared : Bool
deriving Repr

/-- The service function `logoutUser`, run on the current content of the array
`blacklistedTokens`.  `!cookies?.jwt` holds when `cookies` is missing, when it
has no `jwt`, and when `jwt` is the empty string. -/
def logoutUser (cookies : Option Cookies) (tokens : List String) : Logout :=
  match cookies.bind (fun c => c.jwt) with
  | none => { settled := .error "You are not logged in", tokens := tokens, cookieCleared := false }
  | some jwt =>
    if jwt = "" then
      { settled := .error "You are not logged in", tokens := tokens, cookieCleared := false }
    else
      { settled := .ok (), tokens := tokens ++ [jwt], cookieCleared := true }

/-- The service function `getBlacklistedTokens`. -/
def getBlacklistedTokens (tokens : List String) : List String := tokens

/-- Membership of a token in the list `getBlacklistedTokens` returns. -/
def isRevoked (t : String) (tokens : List String) : Bool :=
  (getBlacklistedTokens tokens).contains t

/-- The array of revoked tokens after a sequence of `logoutUser` calls, given by
their `cookies` arguments, run on the array `tokens`. -/
def logoutSequence (calls : List (Option Cookies)) (tokens : List String) : List String :=
  calls.foldl (fun acc cookies => (logoutUser cookies acc).tokens) tokens

/-- The service function `getSingleUserData`. -/
def getSingleUserData (env : Env) (id : String) (s : Store) : Except Failure UserDoc :=
  if !env.isValid id then
    .error (.errorHandler ("Invalid user ID: " ++ id))
  else
    match s.users.find? (fun u => u._id == env.castId id) with
    | none => .error (.errorHandler ("User not found with ID: " ++ id))
    | some user => .ok user

/-- The service function `CreateUserData`. -/
def CreateUserData (env : Env) (req : UserReq) (s : Store) : Except Failure UserDoc × Store :=
  match s.users.find? (fun u => env.collationEq u.name req.body.name) with
  | some _ => (.error (.errorHandler "Duplicate name"), s)
  | none =>
    let uploaded := uploadedImages env req.files s
    match uploaded.1 with
    | none => (.error .uploadRejected, uploaded.2)
    | some images =>
      if images.length = STATUSCODE_ZERO then
        (.error (.errorHandler "At least one image is required"), uploaded.2)
      else
        let roles := (rolesOfBody req.body.roles).getD [env.customer]
        let user : UserDoc :=
          { _id := env.newId (uploaded.2.users.map (fun u => u._id)),
            name := req.body.name,
            email := req.body.email,
            password := env.hash req.body.password,
            roles := roles,
            image := images }
        if !env.validUser user then
          (.error .validation, uploaded.2)
        else if !env.writeResolves (.createUser user) then
          (.error .databaseRejected, uploaded.2)
        else
          (.ok user, { uploaded.2 with users := uploaded.2.users ++ [user] })

/-- The object literal `{ ...req.body, roles: roles, image: images }` as the
content of the `User` document `id`: `name`, `email` and `password` come from
the body as they are, and the keys `roles` and `image` written after the spread
replace the ones the body may carry. -/
def userFields (id : ObjectId) (body : UserBody) (roles : List String)
    (images : List Image) : UserDoc :=
  { _id := id, name := body.name, email := body.email, password := body.password,
    roles := roles, image := images }

/-- The database call `User.findByIdAndUpdate(id, update, { new: true,
runValidators: true })`: the validators run on the update, then the database
is asked; when it answers, the first document with the identifier is rewritten
and returned, `null` when there is none. -/
def userFindByIdAndUpdate (env : Env) (id : ObjectId) (update : UserDoc)
    (users : List UserDoc) : Except Failure (Option UserDoc) × List UserDoc :=
  if !env.validUser update then
    (.error .validation, users)
  else if !env.writeResolves (.updateUser id update) then
    (.error .databaseRejected, users)
  else
    match users.find? (fun u => u._id == id) with
    | none => (.ok none, users)
    | some _ =>
      (.ok (some update), users.map (fun u => if u._id == id then update else u))

/-- The service function `updateUserData`. -/
def updateUserData (env : Env) (req : UserReq) (id : String) (s : Store) :
    Except Failure UserDoc × Store :=
  if !env.isValid id then
    (.error (.errorHandler ("Invalid user ID: " ++ id)), s)
  else
    match s.users.find? (fun u => u._id == env.castId id) with
    | none => (.error (.errorHandler ("User not found with ID: " ++ id)), s)
    | some existingUser =>
      match env.regExp ("^" ++ req.body.name ++ "$") with
      | none => (.error .regExpSyntax, s)
      | some regex =>
        match s.users.find? (fun u => regex u.name && u._id != env.castId id) with
        | some _ => (.error (.errorHandler "Duplicate name"), s)
        | none =>
          let replaced := replacedImages env req.files existingUser.image s
          match replaced.1 with
          | .error e => (.error e, replaced.2)
          | .ok images =>
            let roles := (rolesOfBody req.body.roles).getD existingUser.roles
            let written := userFindByIdAndUpdate env (env.castId id)
              (userFields (env.castId id) req.body roles images) replaced.2.users
            match written.1 with
            | .error e => (.error e, replaced.2)
            | .ok none => (.error (.errorHandler ("User not found with ID: " ++ id)), replaced.2)
            | .ok (some updatedUser) =>
              (.ok updatedUser, { replaced.2 with users := written.2 })

/-- The database call `User.deleteOne({ _id: id })`: when the database carries
it out, the first document with the identifier is gone. -/
def userDeleteOne (env : Env) (id : ObjectId) (s : Store) : Bool × Store :=
  if env.writeResolves (.deleteUser id) then
    (true, { s with users := s.users.eraseP (fun u => u._id == id) })
  else
    (false, s)

/-- The database call `Products.deleteMany({ user: id })`: when the database
carries it out, no product with that `user` is left. -/
def productsDeleteMany (env : Env) (user : ObjectId) (s : Store) : Bool × Store :=
  if env.writeResolves (.deleteProducts user) then
    (true, { s with products := s.products.filter (fun p => p.user != user) })
  else
    (false, s)

/-- The database call `Transactions.deleteMany({ user: id })`: when the
database carries it out, no transaction with that `user` is left. -/
def transactionsDeleteMany (env : Env) (user : ObjectId) (s : Store) : Bool × Store :=
  if env.writeResolves (.deleteTransactions user) then
    (true, { s with transactions := s.transactions.filter (fun t => t.user != user) })
  else
    (false, s)

/-- The service function `deleteUserData`.  The four members of the
`Promise.all` are all started, so each has its effect whether or not another
is rejected; the call is rejected when one of them is (the rejection reported
is that of the first rejected member of the array). -/
def deleteUserData (env : Env) (id : String) (s : Store) : Except Failure UserDoc × Store :=
  if !env.isValid id then
    (.error (.errorHandler ("Invalid user ID: " ++ id)), s)
  else
    match s.users.find? (fun u => u._id == env.castId id) with
    | none => (.error (.errorHandler ("User not found with ID: " ++ id)), s)
    | some user =>
      let publicIds := user.image.map (fun image => image.public_id)
      let removed := userDeleteOne env (env.castId id) s
      let deleted := delete_resources env publicIds removed.2
      let products := productsDeleteMany env (env.castId id) deleted.2
      let transactions := transactionsDeleteMany env (env.castId id) products.2
      if !removed.1 then (.error .databaseRejected, transactions.2)
      else if !deleted.1 then (.error .deleteRejected, transactions.2)
      else if !products.1 then (.error .databaseRejected, transactions.2)
      else if !transactions.1 then (.error .databaseRejected, transactions.2)
      else (.ok user, transactions.2)

/-! ## The store a delete leaves -/

/-- The store a `deleteTestData` call leaves once the lookup has found the
record: each member of the `Promise.all` has had its effect. -/
def afterDeleteTest (env : Env) (id : String) (test : TestDoc) (s : Store) : Store :=
  (delete_resources env (test.image.map (fun image => image.public_id))
    (testDeleteOne env (env.castId id) s).2).2

/-- The store a `deleteUserData` call leaves once the lookup has found the
record: each member of the `Promise.all` has had its effect. -/
def afterDeleteUser (env : Env) (id : String) (user : UserDoc) (s : Store) : Store :=
  (transactionsDeleteMany env (env.castId id)
    (productsDeleteMany env (env.castId id)
      (delete_resources env (user.image.map (fun image => image.public_id))
        (userDeleteOne env (env.castId id) s).2).2).2).2

/-! ## A sample world

One choice of collaborator answers, used to run the services on concrete
requests. -/

/-- The characters with a meaning of their own in a pattern source: the
backslash, `^ $ . | ? * + ( ) [ ]` and the two braces. -/
def patternSpecial (c : Char) : Bool :=
  [92, 94, 36, 46, 124, 63, 42, 43, 40, 41, 91, 93, 123, 125].contains c.toNat

/-- A pattern source handled by `sampleRegExp`: `none` is the wildcard `.`,
`some c` the literal character `c`, a printable ASCII character without a
meaning of its own. -/
def samplePattern : List Char → Option (List (Option Char))
  | [] => some []
  | c :: rest =>
    if c = '.' then (samplePattern rest).map (fun p => none :: p)
    else if 32 ≤ c.toNat && c.toNat ≤ 126 && !patternSpecial c then
      (samplePattern rest).map (fun p => some c :: p)
    else none

/-- Whether the whole subject is matched by the pattern, letters compared
without regard to case and `.` standing for any character other than a line
terminator. -/
def sampleMatch : List (Option Char) → List Char → Bool
  | [], [] => true
  | some c :: pattern, d :: subject => c.toLower == d.toLower && sampleMatch pattern subject
  | none :: pattern, d :: subject =>
    (d != '\n' && d != '\r' && d.toNat != 0x2028 && d.toNat != 0x2029)
      && sampleMatch pattern subject
  | _, _ => false

/-- The constructor `new RegExp(src, "i")` on the sources `^body$` whose body is
made of literal printable ASCII characters and the wildcard `.`; on that fragment the
resulting expression matches a subject exactly when the subject has the length
of the body and agrees with it position by position.  Every other source is
answered `none`: the sample world is only run inside the fragment. -/
def sampleRegExp (src : String) : Option (String → Bool) :=
  match src.toList with
  | '^' :: rest =>
    match rest.reverse with
    | '$' :: body =>
      (samplePattern body.reverse).map (fun p => fun subject => sampleMatch p subject.toList)
    | _ => none
  | _ => none

/-- The sample world: the valid id strings are the strings of 24 hexadecimal
digits, read by the database without regard to the case of the digits; every
database write is carried out; the
collation `{ locale: "en" }`, given without a `strength`, compares at the
default tertiary level, which tells letter case apart, so that two names are
equal when they are the same string; uploads resolve with the requested
`public_id`; deletions resolve; the schemas accept a name of at most 30
characters. -/
def sampleEnv : Env where
  isValid := fun id => id.toList.length == 24 &&
    id.toList.all (fun c => c.isDigit || ('a' ≤ c && c ≤ 'f') || ('A' ≤ c && c ≤ 'F'))
  castId := fun id => { hex := String.mk (id.toList.map Char.toLower) }
  writeResolves := fun _ => true
  collationEq := fun a b => a == b
  regExp := sampleRegExp
  upload := fun _ public_id => some { public_id := public_id, url := "https://assets/" ++ public_id }
  deleteResolves := fun _ => true
  validTest := fun t => t.test.toList.length ≤ 30
  validUser := fun u => u.name.toList.length ≤ 30
  newId := fun ids =>
    { hex := String.mk (List.replicate 23 'f' ++ [Char.ofNat (48 + ids.length % 10)]) }
  hash := fun password => "hashed:" ++ password
  customer := "Customer"

/-! ## Sample stores and requests -/

/-- The `ObjectId` written as the 23 digits `0` followed by `last`. -/
def sampleId (last : String) : ObjectId :=
  { hex := "00000000000000000000000" ++ last }

/-- A sample image entry whose `public_id` is `name`. -/
def sampleImage (name : String) : Image :=
  { public_id := name, url := "https://assets/" ++ name, originalname := name ++ ".png" }

/-- A sample attachment stored by the middleware under `name`. -/
def sampleFile (name : String) : File :=
  { path := "uploads/" ++ name, filename := name, originalname := name ++ ".png" }

/-- A store with one test named `widget` and one user named `widget`, each
with one image held by the asset service, and one dependent product and
transaction of that user next to a product and a transaction of someone
else. -/
def sampleStore : Store where
  tests := [{ _id := sampleId "a", test := "widget", image := [sampleImage "a"] }]
  users := [{ _id := sampleId "b", name := "widget", email := "w@example.org",
              password := "hashed:secret", roles := ["Customer"], image := [sampleImage "b"] }]
  products := [{ _id := sampleId "c", user := sampleId "b" },
               { _id := sampleId "d", user := sampleId "e" }]
  transactions := [{ _id := sampleId "f", user := sampleId "b",
                     product := [sampleId "c"], status := "pending",
                     date := "2024-01-01" },
                   { _id := sampleId "9", user := sampleId "e",
                     product := [sampleId "d"], status := "pending",
                     date := "2024-01-02" }]
  assets := ["a", "b"]
  calls := []

/-- A request of the test routes with the given name and attachments. -/
def sampleTestReq (name : String) (files : Files) : TestReq :=
  { body := { test := name, image := none }, files := files }

/-- A request of the user routes with the given name and attachments. -/
def sampleUserReq (name : String) (files : Files) : UserReq :=
  { body := { name := name, email := "n@example.org", password := "secret",
              roles := .absent, image := none },
    files := files }

/-- A store with two tests and two users whose names, `a.c` and `abc`, differ
by more than letter case. -/
def dottedStore : Store where
  tests := [{ _id := sampleId "a", test := "a.c", image := [sampleImage "a"] },
            { _id := sampleId "c", test := "abc", image := [sampleImage "c"] }]
  users := [{ _id := sampleId "b", name := "a.c", email := "w@example.org",
              password := "hashed:secret", roles := ["Customer"], image := [sampleImage "b"] },
            { _id := sampleId "d", name := "abc", email := "v@example.org",
              password := "hashed:secret", roles := ["Customer"], image := [sampleImage "d"] }]
  products := []
  transactions := []
  assets := ["a", "b", "c", "d"]
  calls := []

/-! ## Asset liveness -/

/-- Every image entry of every stored test and user names an object the asset
service holds. -/
def Live (s : Store) : Prop :=
  (∀ t ∈ s.tests, ∀ image ∈ t.image, image.public_id ∈ s.assets) ∧
  (∀ u ∈ s.users, ∀ image ∈ u.image, image.public_id ∈ s.assets)

instance (s : Store) : Decidable (Live s) := by
  unfold Live
  exact inferInstance

/-- No `public_id` is referenced by two records: not by two tests or two users
with different ids, and not by a test and a user. -/
def Exclusive (s : Store) : Prop :=
  (∀ a ∈ s.tests, ∀ b ∈ s.tests, a._id ≠ b._id →
    ∀ x ∈ a.image, ∀ y ∈ b.image, x.public_id ≠ y.public_id) ∧
  (∀ a ∈ s.users, ∀ b ∈ s.users, a._id ≠ b._id →
    ∀ x ∈ a.image, ∀ y ∈ b.image, x.public_id ≠ y.public_id) ∧
  (∀ a ∈ s.tests, ∀ b ∈ s.users,
    ∀ x ∈ a.image, ∀ y ∈ b.image, x.public_id ≠ y.public_id)

instance (s : Store) : Decidable (Exclusive s) := by
  unfold Exclusive
  exact inferInstance

/-- The primary key of the database: within a collection no two documents carry
the same `_id`. -/
def UniqueIds (s : Store) : Prop :=
  (s.tests.map (fun t => t._id)).Nodup ∧ (s.users.map (fun u => u._id)).Nodup

instance (s : Store) : Decidable (UniqueIds s) := by
  unfold UniqueIds
  exact inferInstance

/-- A world like the sample one in which the database is unreachable for
writes: every write is rejected. -/
def readOnlyEnv : Env :=
  { sampleEnv with writeResolves := fun _ => false }

/-- Whether the upload of some new attachment resolves with a `public_id` that
the image list `existing` already carries. -/
def collides (env : Env) (existing : List Image) (files : Files) : Bool :=
  match files with
  | .array files =>
    files.any (fun file =>
      match env.upload file.path file.filename with
      | some result => (existing.map (fun image => image.public_id)).contains result.public_id
      | none => false)
  | _ => false

/-- Whether some stored test or user lists an image with the given
`public_id`. -/
def referenced (s : Store) (public_id : String) : Bool :=
  s.tests.any (fun t => t.image.any (fun image => image.public_id == public_id)) ||
  s.users.any (fun u => u.image.any (fun image => image.public_id == public_id))

/-- Whether every upload of a new attachment that resolves does so with a
`public_id` that no stored record lists. -/
def freshUploads (env : Env) (s : Store) (files : Files) : Bool :=
  match files with
  | .array files =>
    files.all (fun file =>
      match env.upload file.path file.filename with
      | some result => !referenced s result.public_id
      | none => true)
  | _ => true

/-- A store in which a test and a user list the same image. -/
def sharedStore : Store where
  tests := [{ _id := sampleId "a", test := "widget", image := [sampleImage "a"] }]
  users := [{ _id := sampleId "b", name := "widget", email := "w@example.org",
              password := "hashed:secret", roles := ["Customer"], image := [sampleImage "a"] }]
  products := []
  transactions := []
  assets := ["a"]
  calls := []

/-- A name of 31 characters, one more than the schemas of the sample world
accept. -/
def longName : String := "an-overlong-name-of-31-letters-"

/-! ## Properties of the asset service calls -/

/-- The image entry the services build from an attachment and the value its
upload resolved with. -/
def Uploaded (env : Env) (file : File) (image : Image) : Prop :=
  ∃ result, env.upload file.path file.filename = some result ∧
    image = { public_id := result.public_id, url := result.url,
              originalname := file.originalname }

theorem uploadFile_frame (env : Env) (file : File) (s : Store) :
    (uploadFile env file s).2.tests = s.tests ∧ (uploadFile env file s).2.users = s.users ∧
    (uploadFile env file s).2.products = s.products ∧
    (uploadFile env file s).2.transactions = s.transactions := by
  unfold uploadFile
  cases env.upload file.path file.filename <;> simp

theorem uploadFile_assets (env : Env) (file : File) (s : Store) (a : String)
    (h : a ∈ s.assets) : a ∈ (uploadFile env file s).2.assets := by
  unfold uploadFile
  cases env.upload file.path file.filename <;> simp [h]

theorem uploadFile_some (env : Env) (file : File) (s : Store) (image : Image)
    (h : (uploadFile env file s).1 = some image) :
    Uploaded env file image ∧ image.public_id ∈ (uploadFile env file s).2.assets := by
  unfold uploadFile at h ⊢
  unfold Uploaded
  cases hu : env.upload file.path file.filename with
  | none => simp [hu] at h
  | some result =>
    simp only [hu, Option.some.injEq] at h
    subst h
    simp

theorem uploadAll_frame (env : Env) (files : List File) (s : Store) :
    (uploadAll env files s).2.tests = s.tests ∧ (uploadAll env files s).2.users = s.users ∧
    (uploadAll env files s).2.products = s.products ∧
    (uploadAll env files s).2.transactions = s.transactions := by
  induction files generalizing s with
  | nil => simp [uploadAll]
  | cons file rest ih =>
    have h1 := uploadFile_frame env file s
    have h2 := ih (uploadFile env file s).2
    simp only [uploadAll]
    exact ⟨h2.1.trans h1.1, h2.2.1.trans h1.2.1, h2.2.2.1.trans h1.2.2.1,
      h2.2.2.2.trans h1.2.2.2⟩

theorem uploadAll_assets (env : Env) (files : List File) (s : Store) (a : String)
    (h : a ∈ s.assets) : a ∈ (uploadAll env files s).2.assets := by
  induction files generalizing s with
  | nil => simpa [uploadAll] using h
  | cons file rest ih =>
    simp only [uploadAll]
    exact ih _ (uploadFile_assets env file s a h)

theorem uploadAll_some (env : Env) (files : List File) (s : Store) (images : List Image)
    (h : (uploadAll env files s).1 = some images) :
    List.Forall₂ (Uploaded env) files images ∧
    ∀ image ∈ images, image.public_id ∈ (uploadAll env files s).2.assets := by
  induction files generalizing s images with
  | nil =>
    simp only [uploadAll, Option.some.injEq] at h
    subst h
    simp
  | cons file rest ih =>
    simp only [uploadAll] at h ⊢
    cases h1 : (uploadFile env file s).1 with
    | none => simp [h1] at h
    | some image =>
      cases h2 : (uploadAll env rest (uploadFile env file s).2).1 with
      | none => simp [h1, h2] at h
      | some others =>
        simp only [h1, h2, Option.some.injEq] at h
        subst h
        have hf := uploadFile_some env file s image h1
        have hr := ih (uploadFile env file s).2 others h2
        refine ⟨List.Forall₂.cons hf.1 hr.1, ?_⟩
        intro im him
        rcases List.mem_cons.1 him with rfl | him
        · exact uploadAll_assets env rest _ _ hf.2
        · exact hr.2 im him

theorem delete_resources_frame (env : Env) (ids : List String) (s : Store) :
    (delete_resources env ids s).2.tests = s.tests ∧
    (delete_resources env ids s).2.users = s.users ∧
    (delete_resources env ids s).2.products = s.products ∧
    (delete_resources env ids s).2.transactions = s.transactions := by
  unfold delete_resources
  split <;> simp

theorem delete_resources_assets (env : Env) (ids : List String) (s : Store) (a : String) :
    a ∈ (delete_resources env ids s).2.assets ↔
      a ∈ s.assets ∧ ((delete_resources env ids s).1 = true → a ∉ ids) := by
  unfold delete_resources
  split <;> simp

theorem delete_resources_called (env : Env) (ids : List String) (s : Store) :
    AssetCall.delete_resources ids ∈ (delete_resources env ids s).2.calls := by
  unfold delete_resources
  split <;> simp

/-! ## C4: the image list of a created record -/

/-- C4: a successful `createTestData` / `CreateUserData` call whose request
carries the attachments `files` has at least one attachment, and the record it
returns is persisted with an image list of exactly `files.length` entries, the
i-th built from the value the i-th upload resolved with and the i-th
attachment's `originalname`; every `public_id` of the list is held by the asset
service when the call returns. -/
theorem create_image_list (env : Env) (s : Store) :
    (∀ (req : TestReq) (files : List File) (test : TestDoc) (s' : Store),
      req.files = .array files → createTestData env req s = (.ok test, s') →
        1 ≤ files.length ∧ test.image.length = files.length ∧
        List.Forall₂ (Uploaded env) files test.image ∧ test ∈ s'.tests ∧
        ∀ image ∈ test.image, image.public_id ∈ s'.assets) ∧
    (∀ (req : UserReq) (files : List File) (user : UserDoc) (s' : Store),
      req.files = .array files → CreateUserData env req s = (.ok user, s') →
        1 ≤ files.length ∧ user.image.length = files.length ∧
        List.Forall₂ (Uploaded env) files user.image ∧ user ∈ s'.users ∧
        ∀ image ∈ user.image, image.public_id ∈ s'.assets) := by
  constructor
  · intro req files test s' hfiles h
    unfold createTestData at h
    simp only [hfiles, uploadedImages] at h
    split at h
    · simp at h
    · split at h
      · simp at h
      · rename_i image himage
        split at h
        · simp at h
        · rename_i hlen
          split at h
          · simp at h
          · split at h
            · simp at h
            · simp only [Prod.mk.injEq, Except.ok.injEq] at h
              obtain ⟨h1, h2⟩ := h
              have hup := uploadAll_some env files s image himage
              have hl := hup.1.length_eq
              subst h1 h2
              simp only [testFields, STATUSCODE_ZERO] at hlen ⊢
              refine ⟨by omega, hl.symm, hup.1, by simp, hup.2⟩
  · intro req files user s' hfiles h
    unfold CreateUserData at h
    simp only [hfiles, uploadedImages] at h
    split at h
    · simp at h
    · split at h
      · simp at h
      · rename_i images himages
        split at h
        · simp at h
        · rename_i hlen
          split at h
          · simp at h
          · split at h
            · simp at h
            · simp only [Prod.mk.injEq, Except.ok.injEq] at h
              obtain ⟨h1, h2⟩ := h
              have hup := uploadAll_some env files s images himages
              have hl := hup.1.length_eq
              subst h1 h2
              simp only [STATUSCODE_ZERO] at hlen ⊢
              refine ⟨by omega, hl.symm, hup.1, by simp, hup.2⟩
/-- C4, witness: one attachment uploaded for a new test and for a new user of the
sample store. -/
theorem create_image_list_witness :
    (∃ test s', createTestData sampleEnv (sampleTestReq "gadget" (.array [sampleFile "c"]))
        sampleStore = (.ok test, s') ∧ test.image.length = 1 ∧
        ∀ image ∈ test.image, image.public_id ∈ s'.assets) ∧
    (∃ user s', CreateUserData sampleEnv (sampleUserReq "gadget" (.array [sampleFile "c"]))
        sampleStore = (.ok user, s') ∧ user.image.length = 1 ∧
        ∀ image ∈ user.image, image.public_id ∈ s'.assets) := by
  have ht := (create_image_list sampleEnv sampleStore).1
    (sampleTestReq "gadget" (.array [sampleFile "c"])) [sampleFile "c"] _ _ rfl (by rfl)
  have hu := (create_image_list sampleEnv sampleStore).2
    (sampleUserReq "gadget" (.array [sampleFile "c"])) [sampleFile "c"] _ _ rfl (by rfl)
  exact ⟨⟨_, _, rfl, ht.2.1, ht.2.2.2.2⟩, ⟨_, _, rfl, hu.2.1, hu.2.2.2.2⟩⟩

/-! ## Properties of the database calls -/

theorem find?_key_some {α : Type} (key : α → ObjectId) (l : List α) (id : ObjectId) (x : α)
    (h : l.find? (fun a => key a == id) = some x) : x ∈ l ∧ key x = id := by
  have h1 := List.find?_some h
  have h2 := List.mem_of_find?_eq_some h
  exact ⟨h2, by simpa using h1⟩

theorem find?_key_none {α : Type} (key : α → ObjectId) (l : List α) (id : ObjectId)
    (h : ∀ a ∈ l, key a ≠ id) : l.find? (fun a => key a == id) = none := by
  rw [List.find?_eq_none]
  intro a ha
  simpa using h a ha

theorem mem_eraseP_key {α : Type} (key : α → ObjectId) (l : List α) (id : ObjectId)
    (h : (l.map key).Nodup) (x : α) :
    x ∈ l.eraseP (fun a => key a == id) ↔ x ∈ l ∧ key x ≠ id := by
  induction l with
  | nil => simp
  | cons a rest ih =>
    simp only [List.map_cons, List.nodup_cons, List.mem_map, not_exists, not_and] at h
    by_cases ha : key a = id
    · have hp : (key a == id) = true := by simpa using ha
      simp only [List.eraseP_cons, hp, cond_true]
      constructor
      · intro hx
        refine ⟨List.mem_cons_of_mem _ hx, ?_⟩
        intro hk
        exact h.1 x hx (hk.trans ha.symm)
      · rintro ⟨hx, hk⟩
        rcases List.mem_cons.1 hx with rfl | hx
        · exact absurd ha hk
        · exact hx
    · have hp : ¬ (key a == id) = true := by simpa using ha
      simp only [List.eraseP_cons, hp, cond_false, List.mem_cons, ih h.2]
      constructor
      · rintro (rfl | ⟨hx, hk⟩)
        · exact ⟨Or.inl rfl, ha⟩
        · exact ⟨Or.inr hx, hk⟩
      · rintro ⟨rfl | hx, hk⟩
        · exact Or.inl rfl
        · exact Or.inr ⟨hx, hk⟩

theorem mem_of_mem_eraseP_key {α : Type} (key : α → ObjectId) (l : List α) (id : ObjectId)
    (x : α) (h : x ∈ l.eraseP (fun a => key a == id)) : x ∈ l :=
  List.mem_of_mem_eraseP h

/-- The ways a `deleteTestData` call ends: before the `Promise.all`, with the
store untouched, or after it, rejected or resolved with the record found. -/
theorem deleteTestData_cases (env : Env) (id : String) (s : Store) :
    ((deleteTestData env id s).2 = s ∧ ∃ e, (deleteTestData env id s).1 = .error e) ∨
    ∃ test, env.isValid id = true ∧
      s.tests.find? (fun t => t._id == env.castId id) = some test ∧
      (deleteTestData env id s).2 = afterDeleteTest env id test s ∧
      ((env.writeResolves (.deleteTest (env.castId id)) = true ∧
        env.deleteResolves (test.image.map (fun image => image.public_id)) = true ∧
        (deleteTestData env id s).1 = .ok test) ∨
       ((env.writeResolves (.deleteTest (env.castId id)) = false ∨
         env.deleteResolves (test.image.map (fun image => image.public_id)) = false) ∧
        ∃ e, (deleteTestData env id s).1 = .error e)) := by
  unfold deleteTestData afterDeleteTest
  cases hv : env.isValid id
  · left; simp
  · cases hfound : s.tests.find? (fun t => t._id == env.castId id) with
    | none => left; simp
    | some test =>
      right
      refine ⟨test, rfl, rfl, ?_⟩
      simp only [testDeleteOne, delete_resources]
      cases hw : env.writeResolves (.deleteTest (env.castId id)) <;>
        cases hd : env.deleteResolves (test.image.map (fun image => image.public_id)) <;>
        simp

/-- The ways a `deleteUserData` call ends, as for `deleteTestData`. -/
theorem deleteUserData_cases (env : Env) (id : String) (s : Store) :
    ((deleteUserData env id s).2 = s ∧ ∃ e, (deleteUserData env id s).1 = .error e) ∨
    ∃ user, env.isValid id = true ∧
      s.users.find? (fun u => u._id == env.castId id) = some user ∧
      (deleteUserData env id s).2 = afterDeleteUser env id user s ∧
      ((env.writeResolves (.deleteUser (env.castId id)) = true ∧
        env.deleteResolves (user.image.map (fun image => image.public_id)) = true ∧
        env.writeResolves (.deleteProducts (env.castId id)) = true ∧
        env.writeResolves (.deleteTransactions (env.castId id)) = true ∧
        (deleteUserData env id s).1 = .ok user) ∨
       ((env.writeResolves (.deleteUser (env.castId id)) = false ∨
         env.deleteResolves (user.image.map (fun image => image.public_id)) = false ∨
         env.writeResolves (.deleteProducts (env.castId id)) = false ∨
         env.writeResolves (.deleteTransactions (env.castId id)) = false) ∧
        ∃ e, (deleteUserData env id s).1 = .error e)) := by
  unfold deleteUserData afterDeleteUser
  cases hv : env.isValid id
  · left; simp
  · cases hfound : s.users.find? (fun u => u._id == env.castId id) with
    | none => left; simp
    | some user =>
      right
      refine ⟨user, rfl, rfl, ?_⟩
      simp only [userDeleteOne, delete_resources, productsDeleteMany, transactionsDeleteMany]
      cases hw : env.writeResolves (.deleteUser (env.castId id)) <;>
        cases hd : env.deleteResolves (user.image.map (fun image => image.public_id)) <;>
        cases hp : env.writeResolves (.deleteProducts (env.castId id)) <;>
        cases ht : env.writeResolves (.deleteTransactions (env.castId id)) <;>
        simp

theorem afterDeleteTest_props (env : Env) (id : String) (test : TestDoc) (s : Store) :
    (afterDeleteTest env id test s).tests
      = (if env.writeResolves (.deleteTest (env.castId id)) then
          s.tests.eraseP (fun t => t._id == env.castId id) else s.tests) ∧
    (afterDeleteTest env id test s).users = s.users ∧
    (afterDeleteTest env id test s).products = s.products ∧
    (afterDeleteTest env id test s).transactions = s.transactions ∧
    AssetCall.delete_resources (test.image.map (fun image => image.public_id))
      ∈ (afterDeleteTest env id test s).calls ∧
    ∀ a, a ∈ (afterDeleteTest env id test s).assets ↔
      a ∈ s.assets ∧
      (env.deleteResolves (test.image.map (fun image => image.public_id)) = true →
        a ∉ test.image.map (fun image => image.public_id)) := by
  unfold afterDeleteTest
  simp only [testDeleteOne, delete_resources]
  cases hw : env.writeResolves (.deleteTest (env.castId id)) <;>
    cases hd : env.deleteResolves (test.image.map (fun image => image.public_id)) <;>
    simp

theorem afterDeleteUser_props (env : Env) (id : String) (user : UserDoc) (s : Store) :
    (afterDeleteUser env id user s).tests = s.tests ∧
    (afterDeleteUser env id user s).users
      = (if env.writeResolves (.deleteUser (env.castId id)) then
          s.users.eraseP (fun u => u._id == env.castId id) else s.users) ∧
    (afterDeleteUser env id user s).products
      = (if env.writeResolves (.deleteProducts (env.castId id)) then
          s.products.filter (fun p => p.user != env.castId id) else s.products) ∧
    (afterDeleteUser env id user s).transactions
      = (if env.writeResolves (.deleteTransactions (env.castId id)) then
          s.transactions.filter (fun t => t.user != env.castId id) else s.transactions) ∧
    AssetCall.delete_resources (user.image.map (fun image => image.public_id))
      ∈ (afterDeleteUser env id user s).calls ∧
    ∀ a, a ∈ (afterDeleteUser env id user s).assets ↔
      a ∈ s.assets ∧
      (env.deleteResolves (user.image.map (fun image => image.public_id)) = true →
        a ∉ user.image.map (fun image => image.public_id)) := by
  unfold afterDeleteUser
  simp only [userDeleteOne, delete_resources, productsDeleteMany, transactionsDeleteMany]
  cases hw : env.writeResolves (.deleteUser (env.castId id)) <;>
    cases hd : env.deleteResolves (user.image.map (fun image => image.public_id)) <;>
    cases hp : env.writeResolves (.deleteProducts (env.castId id)) <;>
    cases ht : env.writeResolves (.deleteTransactions (env.castId id)) <;>
    simp

/-! ## C10: deleting a missing record, and the value a delete returns -/

/-- C10: `deleteTestData` / `deleteUserData` called with a malformed id fails
with the invalid-id error, called with a well-formed id that the database
finds no record under fails with the not-found error, and in both cases leaves
every collection, the asset service and its call log as they were; when a
record is stored under the id and the members of the `Promise.all` resolve, the
call succeeds and returns that record; and whenever the call succeeds the value
it returns is the record the lookup by id found before the removal, image list
included. -/
theorem delete_missing_or_snapshot (env : Env) (id : String) (s : Store) :
    (env.isValid id = false →
      deleteTestData env id s = (.error (.errorHandler ("Invalid test ID " ++ id)), s)) ∧
    (env.isValid id = true → (∀ t ∈ s.tests, t._id ≠ env.castId id) →
      deleteTestData env id s
        = (.error (.errorHandler ("Test not found with ID: " ++ id)), s)) ∧
    (∀ test, env.isValid id = true →
      s.tests.find? (fun t => t._id == env.castId id) = some test →
      env.writeResolves (.deleteTest (env.castId id)) = true →
      env.deleteResolves (test.image.map (fun image => image.public_id)) = true →
      (deleteTestData env id s).1 = .ok test) ∧
    (∀ test s', deleteTestData env id s = (.ok test, s') →
      s.tests.find? (fun t => t._id == env.castId id) = some test ∧
      test ∈ s.tests ∧ test._id = env.castId id) ∧
    (env.isValid id = false →
      deleteUserData env id s = (.error (.errorHandler ("Invalid user ID: " ++ id)), s)) ∧
    (env.isValid id = true → (∀ u ∈ s.users, u._id ≠ env.castId id) →
      deleteUserData env id s
        = (.error (.errorHandler ("User not found with ID: " ++ id)), s)) ∧
    (∀ user, env.isValid id = true →
      s.users.find? (fun u => u._id == env.castId id) = some user →
      env.writeResolves (.deleteUser (env.castId id)) = true →
      env.deleteResolves (user.image.map (fun image => image.public_id)) = true →
      env.writeResolves (.deleteProducts (env.castId id)) = true →
      env.writeResolves (.deleteTransactions (env.castId id)) = true →
      (deleteUserData env id s).1 = .ok user) ∧
    (∀ user s', deleteUserData env id s = (.ok user, s') →
      s.users.find? (fun u => u._id == env.castId id) = some user ∧
      user ∈ s.users ∧ user._id = env.castId id) := by
  refine ⟨?_, ?_, ?_, ?_, ?_, ?_, ?_, ?_⟩
  · intro hv
    simp [deleteTestData, hv]
  · intro hv hne
    have hf := find?_key_none (fun t : TestDoc => t._id) s.tests (env.castId id) hne
    simp only [deleteTestData, hv, hf]
    simp
  · intro test hv hfound hw hd
    rcases deleteTestData_cases env id s with ⟨-, e, he⟩ | ⟨found, -, hf, -, h⟩
    · simp [deleteTestData, hv, hfound, testDeleteOne, delete_resources, hw, hd] at he
    · have hsame : found = test := Option.some.inj (hf.symm.trans hfound)
      subst hsame
      rcases h with ⟨-, -, hok⟩ | ⟨hno, -⟩
      · exact hok
      · rcases hno with hno | hno
        · rw [hw] at hno; exact absurd hno (by decide)
        · rw [hd] at hno; exact absurd hno (by decide)
  · intro test s' h
    rcases deleteTestData_cases env id s with ⟨-, e, he⟩ | ⟨found, -, hf, -, hcase⟩
    · rw [h] at he
      simp at he
    · have hk := find?_key_some (fun t : TestDoc => t._id) s.tests (env.castId id) found hf
      rcases hcase with ⟨-, -, hok⟩ | ⟨-, e, he⟩
      · rw [h] at hok
        simp only [Except.ok.injEq] at hok
        subst hok
        exact ⟨hf, hk.1, hk.2⟩
      · rw [h] at he
        simp at he
  · intro hv
    simp [deleteUserData, hv]
  · intro hv hne
    have hf := find?_key_none (fun u : UserDoc => u._id) s.users (env.castId id) hne
    simp only [deleteUserData, hv, hf]
    simp
  · intro user hv hfound hw hd hp ht
    rcases deleteUserData_cases env id s with ⟨-, e, he⟩ | ⟨found, -, hf, -, h⟩
    · simp [deleteUserData, hv, hfound, userDeleteOne, delete_resources, productsDeleteMany,
        transactionsDeleteMany, hw, hd, hp, ht] at he
    · have hsame : found = user := Option.some.inj (hf.symm.trans hfound)
      subst hsame
      rcases h with ⟨-, -, -, -, hok⟩ | ⟨hno, -⟩
      · exact hok
      · rcases hno with hno | hno | hno | hno
        · rw [hw] at hno; exact absurd hno (by decide)
        · rw [hd] at hno; exact absurd hno (by decide)
        · rw [hp] at hno; exact absurd hno (by decide)
        · rw [ht] at hno; exact absurd hno (by decide)
  · intro user s' h
    rcases deleteUserData_cases env id s with ⟨-, e, he⟩ | ⟨found, -, hf, -, hcase⟩
    · rw [h] at he
      simp at he
    · have hk := find?_key_some (fun u : UserDoc => u._id) s.users (env.castId id) found hf
      rcases hcase with ⟨-, -, -, -, hok⟩ | ⟨-, e, he⟩
      · rw [h] at hok
        simp only [Except.ok.injEq] at hok
        subst hok
        exact ⟨hf, hk.1, hk.2⟩
      · rw [h] at he
        simp at he

/-- C10, witness: on the sample store, a malformed id, a well-formed id nobody
carries, and the id of the stored record, spelled in upper case for the test:
the delete returns the record as stored, image list included. -/
theorem delete_missing_or_snapshot_witness :
    deleteTestData sampleEnv "not-an-id" sampleStore
      = (.error (.errorHandler "Invalid test ID not-an-id"), sampleStore) ∧
    deleteTestData sampleEnv "00000000000000000000000b" sampleStore
      = (.error (.errorHandler "Test not found with ID: 00000000000000000000000b"),
         sampleStore) ∧
    (deleteTestData sampleEnv "00000000000000000000000A" sampleStore).1
      = .ok { _id := sampleId "a", test := "widget",
              image := [sampleImage "a"] } ∧
    deleteUserData sampleEnv "not-an-id" sampleStore
      = (.error (.errorHandler "Invalid user ID: not-an-id"), sampleStore) ∧
    deleteUserData sampleEnv "00000000000000000000000a" sampleStore
      = (.error (.errorHandler "User not found with ID: 00000000000000000000000a"),
         sampleStore) ∧
    (deleteUserData sampleEnv "00000000000000000000000b" sampleStore).1
      = .ok { _id := sampleId "b", name := "widget",
              email := "w@example.org", password := "hashed:secret",
              roles := ["Customer"], image := [sampleImage "b"] } :=
  ⟨(delete_missing_or_snapshot sampleEnv "not-an-id" sampleStore).1 (by rfl),
   (delete_missing_or_snapshot sampleEnv "00000000000000000000000b" sampleStore).2.1
     (by rfl) (by decide),
   (delete_missing_or_snapshot sampleEnv "00000000000000000000000A" sampleStore).2.2.1
     _ (by rfl) (by rfl) (by rfl) (by rfl),
   (delete_missing_or_snapshot sampleEnv "not-an-id" sampleStore).2.2.2.2.1 (by rfl),
   (delete_missing_or_snapshot sampleEnv "00000000000000000000000a" sampleStore).2.2.2.2.2.1
     (by rfl) (by decide),
   (delete_missing_or_snapshot sampleEnv "00000000000000000000000b" sampleStore).2.2.2.2.2.2.1
     _ (by rfl) (by rfl) (by rfl) (by rfl) (by rfl) (by rfl)⟩

/-! ## C1: what a successful delete removes -/

/-- C1: in a store whose documents have pairwise different ids, a successful
`deleteUserData id` returns the user stored under the id and leaves a store
where no user with that id exists and every other user is kept, the public_ids
of that stored user's image list have been passed to the asset service's delete
call and none of them is held by the asset service, and exactly the products
and transactions whose `user` key differs from the id remain (the tests are
untouched); a successful `deleteTestData id` does the same for the stored test
document and its images. -/
theorem delete_removes (env : Env) (id : String) (s : Store) :
    (∀ test s', (s.tests.map (fun t => t._id)).Nodup →
      deleteTestData env id s = (.ok test, s') →
        s.tests.find? (fun t => t._id == env.castId id) = some test ∧
        (∀ t ∈ s'.tests, t._id ≠ env.castId id) ∧
        (∀ t, t ∈ s'.tests ↔ t ∈ s.tests ∧ t._id ≠ env.castId id) ∧
        AssetCall.delete_resources (test.image.map (fun image => image.public_id)) ∈ s'.calls ∧
        (∀ image ∈ test.image, image.public_id ∉ s'.assets) ∧
        (∀ a, a ∈ s'.assets ↔
          a ∈ s.assets ∧ a ∉ test.image.map (fun image => image.public_id)) ∧
        s'.users = s.users ∧ s'.products = s.products ∧
        s'.transactions = s.transactions) ∧
    (∀ user s', (s.users.map (fun u => u._id)).Nodup →
      deleteUserData env id s = (.ok user, s') →
        s.users.find? (fun u => u._id == env.castId id) = some user ∧
        (∀ u ∈ s'.users, u._id ≠ env.castId id) ∧
        (∀ u, u ∈ s'.users ↔ u ∈ s.users ∧ u._id ≠ env.castId id) ∧
        AssetCall.delete_resources (user.image.map (fun image => image.public_id)) ∈ s'.calls ∧
        (∀ image ∈ user.image, image.public_id ∉ s'.assets) ∧
        (∀ a, a ∈ s'.assets ↔
          a ∈ s.assets ∧ a ∉ user.image.map (fun image => image.public_id)) ∧
        (∀ p, p ∈ s'.products ↔ p ∈ s.products ∧ p.user ≠ env.castId id) ∧
        (∀ t, t ∈ s'.transactions ↔ t ∈ s.transactions ∧ t.user ≠ env.castId id) ∧
        s'.tests = s.tests) := by
  constructor
  · intro test s' hnd h
    rcases deleteTestData_cases env id s with ⟨-, e, he⟩ | ⟨found, -, hf, hstore, hcase⟩
    · rw [h] at he
      simp at he
    · rcases hcase with ⟨hw, hd, hok⟩ | ⟨-, e, he⟩
      · rw [h] at hok hstore
        simp only [Except.ok.injEq] at hok
        subst hok
        dsimp only at hstore
        subst hstore
        have hp := afterDeleteTest_props env id test s
        rw [hw, if_pos rfl] at hp
        have hmem := mem_eraseP_key (fun t : TestDoc => t._id) s.tests (env.castId id) hnd
        have hassets : ∀ a, a ∈ (afterDeleteTest env id test s).assets ↔
            a ∈ s.assets ∧ a ∉ test.image.map (fun image => image.public_id) := by
          intro a
          rw [hp.2.2.2.2.2 a]
          simp [hd]
        refine ⟨hf, ?_, ?_, hp.2.2.2.2.1, ?_, hassets, hp.2.1, hp.2.2.1, hp.2.2.2.1⟩
        · intro t ht
          rw [hp.1] at ht
          exact ((hmem t).1 ht).2
        · intro t
          rw [hp.1]
          exact hmem t
        · intro image himage hin
          exact ((hassets _).1 hin).2 (List.mem_map_of_mem _ himage)
      · rw [h] at he
        simp at he
  · intro user s' hnd h
    rcases deleteUserData_cases env id s with ⟨-, e, he⟩ | ⟨found, -, hf, hstore, hcase⟩
    · rw [h] at he
      simp at he
    · rcases hcase with ⟨hw, hd, hpr, htr, hok⟩ | ⟨-, e, he⟩
      · rw [h] at hok hstore
        simp only [Except.ok.injEq] at hok
        subst hok
        dsimp only at hstore
        subst hstore
        have hp := afterDeleteUser_props env id user s
        rw [hw, hpr, htr, if_pos rfl, if_pos rfl, if_pos rfl] at hp
        have hmem := mem_eraseP_key (fun u : UserDoc => u._id) s.users (env.castId id) hnd
        have hassets : ∀ a, a ∈ (afterDeleteUser env id user s).assets ↔
            a ∈ s.assets ∧ a ∉ user.image.map (fun image => image.public_id) := by
          intro a
          rw [hp.2.2.2.2.2 a]
          simp [hd]
        refine ⟨hf, ?_, ?_, hp.2.2.2.2.1, ?_, hassets, ?_, ?_, hp.1⟩
        · intro u hu
          rw [hp.2.1] at hu
          exact ((hmem u).1 hu).2
        · intro u
          rw [hp.2.1]
          exact hmem u
        · intro image himage hin
          exact ((hassets _).1 hin).2 (List.mem_map_of_mem _ himage)
        · intro p
          rw [hp.2.2.1]
          simp
        · intro t
          rw [hp.2.2.2.1]
          simp
      · rw [h] at he
        simp at he

/-- C1, witness: the test and the user of the sample store deleted; each call
returns the stored record, and the stored record's asset is no longer held. -/
theorem delete_removes_witness :
    (∃ test s', deleteTestData sampleEnv "00000000000000000000000a" sampleStore = (.ok test, s') ∧
      sampleStore.tests.find? (fun t => t._id == sampleEnv.castId "00000000000000000000000a")
        = some test ∧
      test.image = [sampleImage "a"] ∧ s'.tests = [] ∧ s'.assets = ["b"]) ∧
    (∃ user s', deleteUserData sampleEnv "00000000000000000000000b" sampleStore = (.ok user, s') ∧
      sampleStore.users.find? (fun u => u._id == sampleEnv.castId "00000000000000000000000b")
        = some user ∧
      user.image = [sampleImage "b"] ∧ s'.assets = ["a"] ∧
      (∀ u ∈ s'.users, u._id ≠ sampleEnv.castId "00000000000000000000000b") ∧
      (∀ image ∈ user.image, image.public_id ∉ s'.assets) ∧
      (∀ p, p ∈ s'.products ↔
        p ∈ sampleStore.products ∧ p.user ≠ sampleEnv.castId "00000000000000000000000b") ∧
      (∀ t, t ∈ s'.transactions ↔
        t ∈ sampleStore.transactions ∧
          t.user ≠ sampleEnv.castId "00000000000000000000000b")) := by
  have ht := (delete_removes sampleEnv "00000000000000000000000a" sampleStore).1 _ _
    (by decide) (by rfl)
  have hu := (delete_removes sampleEnv "00000000000000000000000b" sampleStore).2 _ _
    (by decide) (by rfl)
  exact ⟨⟨_, _, rfl, ht.1, rfl, rfl, rfl⟩,
    ⟨_, _, rfl, hu.1, rfl, rfl, hu.2.1, hu.2.2.2.2.1, hu.2.2.2.2.2.2.1,
      hu.2.2.2.2.2.2.2.1⟩⟩

/-! ## C9: the list of revoked tokens -/

theorem logoutUser_keeps (cookies : Option Cookies) (tokens : List String) (t : String)
    (h : t ∈ tokens) : t ∈ (logoutUser cookies tokens).tokens := by
  unfold logoutUser
  split
  · exact h
  · split
    · exact h
    · simp [h]

theorem logoutSequence_mem (calls : List (Option Cookies)) (tokens : List String) (t : String)
    (h : t ∈ logoutSequence calls tokens) :
    t ∈ tokens ∨ some { jwt := some t } ∈ calls := by
  induction calls generalizing tokens with
  | nil => exact Or.inl h
  | cons cookies rest ih =>
    simp only [logoutSequence, List.foldl_cons] at h
    rcases ih _ h with h1 | h1
    · unfold logoutUser at h1
      split at h1
      · exact Or.inl h1
      · rename_i jwt hjwt
        split at h1
        · exact Or.inl h1
        · simp only [List.mem_append, List.mem_singleton] at h1
          rcases h1 with h1 | h1
          · exact Or.inl h1
          · subst h1
            right
            cases cookies with
            | none => simp at hjwt
            | some c =>
              cases c with
              | mk j =>
                simp only [Option.some_bind] at hjwt
                subst hjwt
                simp
    · exact Or.inr (List.mem_cons_of_mem _ h1)

/-- C9, counterexample: `logoutUser` called with a `jwt` cookie whose value is
the empty string rejects, and that value is not in the list afterwards. -/
theorem logout_empty_token_not_revoked :
    ¬ (isRevoked "" (logoutUser (some { jwt := some "" }) blacklistedTokens).tokens = true) := by
  decide

/-- C9, amended: for every non-empty token `t` and every prior sequence of
`logoutUser` calls, `t` is in the list of revoked tokens after one and after two
`logoutUser` calls with cookie `jwt = t`; a token that no call of the sequence
carried is not in the list; and `logoutUser` called without cookies, without a
`jwt` cookie or with an empty one rejects and leaves the list as it was. -/
theorem logout_revokes (calls : List (Option Cookies)) (t : String) (ht : t ≠ "") :
    isRevoked t (logoutUser (some { jwt := some t })
      (logoutSequence calls blacklistedTokens)).tokens = true ∧
    isRevoked t (logoutUser (some { jwt := some t })
      (logoutUser (some { jwt := some t })
        (logoutSequence calls blacklistedTokens)).tokens).tokens = true ∧
    (some { jwt := some t } ∉ calls →
      isRevoked t (logoutSequence calls blacklistedTokens) = false) ∧
    (∀ cookies : Option Cookies,
      cookies = none ∨ cookies = some { jwt := none } ∨ cookies = some { jwt := some "" } →
      (logoutUser cookies (logoutSequence calls blacklistedTokens)).settled
          = .error "You are not logged in" ∧
      (logoutUser cookies (logoutSequence calls blacklistedTokens)).tokens
          = logoutSequence calls blacklistedTokens) := by
  have once : t ∈ (logoutUser (some { jwt := some t })
      (logoutSequence calls blacklistedTokens)).tokens := by
    simp [logoutUser, ht]
  refine ⟨?_, ?_, ?_, ?_⟩
  · simpa [isRevoked, getBlacklistedTokens] using once
  · have := logoutUser_keeps (some { jwt := some t }) _ t once
    simpa [isRevoked, getBlacklistedTokens] using this
  · intro hnot
    have : t ∉ logoutSequence calls blacklistedTokens := by
      intro hmem
      rcases logoutSequence_mem calls blacklistedTokens t hmem with h | h
      · simp [blacklistedTokens] at h
      · exact hnot h
    simpa [isRevoked, getBlacklistedTokens] using this
  · rintro cookies (rfl | rfl | rfl) <;> simp [logoutUser]

/-- C9, witness: `token-1` revoked after `token-0` was. -/
theorem logout_revokes_witness :
    isRevoked "token-1" (logoutUser (some { jwt := some "token-1" })
      (logoutSequence [some { jwt := some "token-0" }] blacklistedTokens)).tokens = true ∧
    isRevoked "token-1"
      (logoutSequence [some { jwt := some "token-0" }] blacklistedTokens) = false :=
  ⟨(logout_revokes [some { jwt := some "token-0" }] "token-1" (by decide)).1,
   (logout_revokes [some { jwt := some "token-0" }] "token-1" (by decide)).2.2.1 (by decide)⟩

/-! ## The outcomes of an update -/

theorem find?_map_replace {α : Type} (key : α → ObjectId) (l : List α) (id : ObjectId)
    (old new : α) (h : l.find? (fun a => key a == id) = some old) (hnew : key new = id) :
    (l.map (fun a => if key a == id then new else a)).find? (fun a => key a == id)
      = some new := by
  induction l with
  | nil => simp at h
  | cons a rest ih =>
    by_cases ha : key a = id
    · have hb : (key a == id) = true := by simpa using ha
      have hn : (key new == id) = true := by simpa using hnew
      simp only [List.map_cons, hb, if_true, List.find?_cons, hn]
    · have hb : (key a == id) = false := by simpa using ha
      have hrest : rest.find? (fun a => key a == id) = some old := by
        simpa [List.find?_cons, hb] using h
      simp only [List.map_cons, hb, List.find?_cons, Bool.false_eq_true, if_false]
      exact ih hrest

theorem testFindByIdAndUpdate_found (env : Env) (id : ObjectId) (update old : TestDoc)
    (tests : List TestDoc) (h : tests.find? (fun t => t._id == id) = some old) :
    testFindByIdAndUpdate env id update tests =
      if env.validTest update = false then (.error .validation, tests)
      else if env.writeResolves (.updateTest id update) = false then
        (.error .databaseRejected, tests)
      else
        (.ok (some update), tests.map (fun t => if t._id == id then update else t)) := by
  unfold testFindByIdAndUpdate
  cases env.validTest update <;> cases env.writeResolves (.updateTest id update) <;> simp [h]

theorem userFindByIdAndUpdate_found (env : Env) (id : ObjectId) (update old : UserDoc)
    (users : List UserDoc) (h : users.find? (fun u => u._id == id) = some old) :
    userFindByIdAndUpdate env id update users =
      if env.validUser update = false then (.error .validation, users)
      else if env.writeResolves (.updateUser id update) = false then
        (.error .databaseRejected, users)
      else
        (.ok (some update), users.map (fun u => if u._id == id then update else u)) := by
  unfold userFindByIdAndUpdate
  cases env.validUser update <;> cases env.writeResolves (.updateUser id update) <;> simp [h]

theorem replacedImages_without (env : Env) (files : Files) (existing : List Image)
    (s : Store) (h : files = .absent ∨ files = .notArray ∨ files = .array []) :
    replacedImages env files existing s = (.ok existing, s) := by
  rcases h with h | h | h <;> simp [h, replacedImages]

theorem replacedImages_frame (env : Env) (files : Files) (existing : List Image) (s : Store) :
    (replacedImages env files existing s).2.tests = s.tests ∧
    (replacedImages env files existing s).2.users = s.users ∧
    (replacedImages env files existing s).2.products = s.products ∧
    (replacedImages env files existing s).2.transactions = s.transactions := by
  unfold replacedImages
  split
  · rename_i file files
    have hu := uploadAll_frame env (file :: files) s
    dsimp only
    split
    · exact hu
    · have hd := delete_resources_frame env (existing.map (fun image => image.public_id))
        (uploadAll env (file :: files) s).2
      split
      · exact ⟨hd.1.trans hu.1, hd.2.1.trans hu.2.1, hd.2.2.1.trans hu.2.2.1,
          hd.2.2.2.trans hu.2.2.2⟩
      · exact ⟨hd.1.trans hu.1, hd.2.1.trans hu.2.1, hd.2.2.1.trans hu.2.2.1,
          hd.2.2.2.trans hu.2.2.2⟩
  · simp

/-- The ways an `updateTestData` call ends: before the image block, with the
store untouched; in the image block; at the final write, refused by the
validators or rejected by the database; or with the document rewritten. -/
theorem updateTestData_cases (env : Env) (req : TestReq) (id : String) (s : Store) :
    ((updateTestData env req id s).2 = s ∧ ∃ e, (updateTestData env req id s).1 = .error e) ∨
    ∃ old, s.tests.find? (fun t => t._id == env.castId id) = some old ∧
      ((∃ e, (replacedImages env req.files old.image s).1 = .error e ∧
          updateTestData env req id s
            = (.error e, (replacedImages env req.files old.image s).2)) ∨
       (∃ image e, (replacedImages env req.files old.image s).1 = .ok image ∧
          (e = .validation ∨ e = .databaseRejected) ∧
          updateTestData env req id s
            = (.error e, (replacedImages env req.files old.image s).2)) ∨
       (∃ image, (replacedImages env req.files old.image s).1 = .ok image ∧
          updateTestData env req id s
            = (.ok (testFields (env.castId id) req.body image),
               { (replacedImages env req.files old.image s).2 with
                 tests := s.tests.map
                   (fun t => if t._id == env.castId id
                     then testFields (env.castId id) req.body image else t) }))) := by
  unfold updateTestData
  cases hv : env.isValid id
  · left; simp
  · cases hold : s.tests.find? (fun t => t._id == env.castId id) with
    | none => left; simp
    | some old =>
      cases hre : env.regExp ("^" ++ req.body.test ++ "$") with
      | none => left; simp
      | some regex =>
        cases hdup : s.tests.find? (fun t => regex t.test && t._id != env.castId id) with
        | some dup => left; simp [hdup]
        | none =>
          right
          refine ⟨old, rfl, ?_⟩
          have hfr := (replacedImages_frame env req.files old.image s).1
          simp only [Bool.not_true, Bool.false_eq_true, if_false, hdup]
          cases hrep : (replacedImages env req.files old.image s).1 with
          | error e => left; exact ⟨e, rfl, rfl⟩
          | ok image =>
            right
            have hw := testFindByIdAndUpdate_found env (env.castId id)
              (testFields (env.castId id) req.body image) old s.tests hold
            cases hval : env.validTest (testFields (env.castId id) req.body image)
            · left
              refine ⟨image, .validation, rfl, Or.inl rfl, ?_⟩
              simp [hfr, hw, hval]
            · cases hdb : env.writeResolves
                (.updateTest (env.castId id) (testFields (env.castId id) req.body image))
              · left
                refine ⟨image, .databaseRejected, rfl, Or.inr rfl, ?_⟩
                simp [hfr, hw, hval, hdb]
              · right
                refine ⟨image, rfl, ?_⟩
                simp [hfr, hw, hval, hdb]

/-- The ways an `updateUserData` call ends, as for `updateTestData`. -/
theorem updateUserData_cases (env : Env) (req : UserReq) (id : String) (s : Store) :
    ((updateUserData env req id s).2 = s ∧ ∃ e, (updateUserData env req id s).1 = .error e) ∨
    ∃ old, s.users.find? (fun u => u._id == env.castId id) = some old ∧
      ((∃ e, (replacedImages env req.files old.image s).1 = .error e ∧
          updateUserData env req id s
            = (.error e, (replacedImages env req.files old.image s).2)) ∨
       (∃ images e, (replacedImages env req.files old.image s).1 = .ok images ∧
          (e = .validation ∨ e = .databaseRejected) ∧
          updateUserData env req id s
            = (.error e, (replacedImages env req.files old.image s).2)) ∨
       (∃ images, (replacedImages env req.files old.image s).1 = .ok images ∧
          updateUserData env req id s
            = (.ok (userFields (env.castId id) req.body
                 ((rolesOfBody req.body.roles).getD old.roles) images),
               { (replacedImages env req.files old.image s).2 with
                 users := s.users.map
                   (fun u => if u._id == env.castId id then userFields (env.castId id) req.body
                     ((rolesOfBody req.body.roles).getD old.roles) images else u) }))) := by
  unfold updateUserData
  cases hv : env.isValid id
  · left; simp
  · cases hold : s.users.find? (fun u => u._id == env.castId id) with
    | none => left; simp
    | some old =>
      cases hre : env.regExp ("^" ++ req.body.name ++ "$") with
      | none => left; simp
      | some regex =>
        cases hdup : s.users.find? (fun u => regex u.name && u._id != env.castId id) with
        | some dup => left; simp [hdup]
        | none =>
          right
          refine ⟨old, rfl, ?_⟩
          have hfr := (replacedImages_frame env req.files old.image s).2.1
          simp only [Bool.not_true, Bool.false_eq_true, if_false, hdup]
          cases hrep : (replacedImages env req.files old.image s).1 with
          | error e => left; exact ⟨e, rfl, rfl⟩
          | ok images =>
            right
            have hw := userFindByIdAndUpdate_found env (env.castId id)
              (userFields (env.castId id) req.body
                ((rolesOfBody req.body.roles).getD old.roles) images) old s.users hold
            cases hval : env.validUser (userFields (env.castId id) req.body
              ((rolesOfBody req.body.roles).getD old.roles) images)
            · left
              refine ⟨images, .validation, rfl, Or.inl rfl, ?_⟩
              simp [hfr, hw, hval]
            · cases hdb : env.writeResolves (.updateUser (env.castId id)
                (userFields (env.castId id) req.body
                  ((rolesOfBody req.body.roles).getD old.roles) images))
              · left
                refine ⟨images, .databaseRejected, rfl, Or.inr rfl, ?_⟩
                simp [hfr, hw, hval, hdb]
              · right
                refine ⟨images, rfl, ?_⟩
                simp [hfr, hw, hval, hdb]

/-! ## C3: an update without new attachments -/

/-- C3: when `updateTestData` / `updateUserData` is called on an existing record
with `req.files` absent, not an array or an empty array, the asset service
receives no call and holds what it held before, and when the call succeeds the
image list of the returned record, which is the record then stored under the
id, is the image list the record had before, whatever the request body carries
under the key `image`. -/
theorem update_without_attachments (env : Env) (id : String) (s : Store) :
    (∀ (req : TestReq) (old : TestDoc),
      s.tests.find? (fun t => t._id == env.castId id) = some old →
      (req.files = .absent ∨ req.files = .notArray ∨ req.files = .array []) →
        (updateTestData env req id s).2.assets = s.assets ∧
        (updateTestData env req id s).2.calls = s.calls ∧
        ∀ test, (updateTestData env req id s).1 = .ok test →
          test.image = old.image ∧
          (updateTestData env req id s).2.tests.find? (fun t => t._id == env.castId id) = some test) ∧
    (∀ (req : UserReq) (old : UserDoc),
      s.users.find? (fun u => u._id == env.castId id) = some old →
      (req.files = .absent ∨ req.files = .notArray ∨ req.files = .array []) →
        (updateUserData env req id s).2.assets = s.assets ∧
        (updateUserData env req id s).2.calls = s.calls ∧
        ∀ user, (updateUserData env req id s).1 = .ok user →
          user.image = old.image ∧
          (updateUserData env req id s).2.users.find? (fun u => u._id == env.castId id) = some user) := by
  constructor
  · intro req old hold hfiles
    have hrep := replacedImages_without env req.files old.image s hfiles
    rcases updateTestData_cases env req id s with ⟨h1, e, h2⟩ | ⟨old', hold', h⟩
    · rw [h1, h2]
      simp
    · have : old' = old := by
        rw [hold] at hold'
        exact (Option.some.inj hold').symm
      subst this
      rw [hrep] at h
      rcases h with ⟨e, h1, -⟩ | ⟨image, e, h1, -, h2⟩ | ⟨image, h1, h2⟩
      · simp at h1
      · rw [h2]
        simp
      · simp only [Except.ok.injEq] at h1
        subst h1
        rw [h2]
        refine ⟨rfl, rfl, ?_⟩
        intro test htest
        simp only [Except.ok.injEq] at htest
        subst htest
        exact ⟨rfl, find?_map_replace (fun t : TestDoc => t._id) s.tests (env.castId id) old' _ hold rfl⟩
  · intro req old hold hfiles
    have hrep := replacedImages_without env req.files old.image s hfiles
    rcases updateUserData_cases env req id s with ⟨h1, e, h2⟩ | ⟨old', hold', h⟩
    · rw [h1, h2]
      simp
    · have : old' = old := by
        rw [hold] at hold'
        exact (Option.some.inj hold').symm
      subst this
      rw [hrep] at h
      rcases h with ⟨e, h1, -⟩ | ⟨images, e, h1, -, h2⟩ | ⟨images, h1, h2⟩
      · simp at h1
      · rw [h2]
        simp
      · simp only [Except.ok.injEq] at h1
        subst h1
        rw [h2]
        refine ⟨rfl, rfl, ?_⟩
        intro user huser
        simp only [Except.ok.injEq] at huser
        subst huser
        exact ⟨rfl, find?_map_replace (fun u : UserDoc => u._id) s.users (env.castId id) old' _ hold rfl⟩

/-- C3, witness: the test of the sample store renamed with an `image` key in the
body and no files, the user renamed with an empty file array. -/
theorem update_without_attachments_witness :
    (∃ test,
      (updateTestData sampleEnv
        { body := { test := "gizmo", image := some [sampleImage "z"] }, files := .absent }
        "00000000000000000000000a" sampleStore).1 = .ok test ∧
      test.image = [sampleImage "a"]) ∧
    (updateUserData sampleEnv (sampleUserReq "gizmo" (.array []))
      "00000000000000000000000b" sampleStore).2.assets = ["a", "b"] := by
  have ht := (update_without_attachments sampleEnv "00000000000000000000000a" sampleStore).1
    { body := { test := "gizmo", image := some [sampleImage "z"] }, files := .absent }
    _ (by rfl) (Or.inl rfl)
  have hu := (update_without_attachments sampleEnv "00000000000000000000000b" sampleStore).2
    (sampleUserReq "gizmo" (.array [])) _ (by rfl) (Or.inr (Or.inr rfl))
  exact ⟨⟨_, rfl, (ht.2.2 _ (by rfl)).1⟩, hu.1⟩

/-! ## C2: an update with new attachments -/

theorem replacedImages_ok (env : Env) (files : List File) (existing images : List Image)
    (s : Store) (hne : files ≠ [])
    (h : (replacedImages env (.array files) existing s).1 = .ok images) :
    List.Forall₂ (Uploaded env) files images ∧
    AssetCall.delete_resources (existing.map (fun image => image.public_id))
      ∈ (replacedImages env (.array files) existing s).2.calls ∧
    (∀ image ∈ existing,
      image.public_id ∉ (replacedImages env (.array files) existing s).2.assets) ∧
    (∀ image ∈ images, image.public_id ∉ existing.map (fun image => image.public_id) →
      image.public_id ∈ (replacedImages env (.array files) existing s).2.assets) ∧
    (∀ a ∈ s.assets, a ∉ existing.map (fun image => image.public_id) →
      a ∈ (replacedImages env (.array files) existing s).2.assets) := by
  cases files with
  | nil => exact absurd rfl hne
  | cons file rest =>
    simp only [replacedImages] at h ⊢
    cases hup : (uploadAll env (file :: rest) s).1 with
    | none => simp [hup] at h
    | some uploaded =>
      simp only [hup] at h ⊢
      cases hdel : (delete_resources env (existing.map (fun image => image.public_id))
          (uploadAll env (file :: rest) s).2).1
      · simp [hdel] at h
      · simp only [hdel, if_true, Except.ok.injEq] at h ⊢
        subst h
        have hu := uploadAll_some env (file :: rest) s uploaded hup
        refine ⟨hu.1, delete_resources_called env _ _, ?_, ?_, ?_⟩
        · intro image himage hin
          exact ((delete_resources_assets env _ _ _).1 hin).2 hdel
            (List.mem_map_of_mem _ himage)
        · intro image himage hnot
          exact (delete_resources_assets env _ _ _).2 ⟨hu.2 image himage, fun _ => hnot⟩
        · intro a ha hnot
          exact (delete_resources_assets env _ _ _).2
            ⟨uploadAll_assets env _ s a ha, fun _ => hnot⟩

/-- C2, counterexample: an attachment stored under the `public_id` of the
record's current image is uploaded and then deleted with the old images; the
update succeeds and returns a record whose new `public_id` the asset service
does not hold. -/
theorem update_new_asset_deleted :
    ∃ test s',
      updateTestData sampleEnv (sampleTestReq "widget" (.array [sampleFile "a"]))
        "00000000000000000000000a" sampleStore = (.ok test, s') ∧
      ¬ (∀ image ∈ test.image, image.public_id ∈ s'.assets) :=
  ⟨_, _, rfl, by decide⟩

/-- C2, amended: a successful `updateTestData` / `updateUserData` on an existing
record with a non-empty attachment list returns, and stores under the id, a
record whose image list is exactly the list of references produced by uploading
the attachments, in their order; every `public_id` of the previous image list
has been passed to the asset service's delete call and is not held by it
afterwards; and every new `public_id` that is not also a `public_id` of the
previous list is held by the asset service afterwards. -/
theorem update_replaces_images (env : Env) (id : String) (s : Store) :
    (∀ (req : TestReq) (files : List File) (old test : TestDoc) (s' : Store),
      s.tests.find? (fun t => t._id == env.castId id) = some old →
      req.files = .array files → files ≠ [] →
      updateTestData env req id s = (.ok test, s') →
        List.Forall₂ (Uploaded env) files test.image ∧
        test.image.length = files.length ∧
        s'.tests.find? (fun t => t._id == env.castId id) = some test ∧
        AssetCall.delete_resources (old.image.map (fun image => image.public_id)) ∈ s'.calls ∧
        (∀ image ∈ old.image, image.public_id ∉ s'.assets) ∧
        (∀ image ∈ test.image,
          image.public_id ∉ old.image.map (fun image => image.public_id) →
            image.public_id ∈ s'.assets)) ∧
    (∀ (req : UserReq) (files : List File) (old user : UserDoc) (s' : Store),
      s.users.find? (fun u => u._id == env.castId id) = some old →
      req.files = .array files → files ≠ [] →
      updateUserData env req id s = (.ok user, s') →
        List.Forall₂ (Uploaded env) files user.image ∧
        user.image.length = files.length ∧
        s'.users.find? (fun u => u._id == env.castId id) = some user ∧
        AssetCall.delete_resources (old.image.map (fun image => image.public_id)) ∈ s'.calls ∧
        (∀ image ∈ old.image, image.public_id ∉ s'.assets) ∧
        (∀ image ∈ user.image,
          image.public_id ∉ old.image.map (fun image => image.public_id) →
            image.public_id ∈ s'.assets)) := by
  constructor
  · intro req files old test s' hold hfiles hne hout
    rcases updateTestData_cases env req id s with ⟨-, e, h2⟩ | ⟨old', hold', h⟩
    · rw [hout] at h2
      simp at h2
    · have : old' = old := by
        rw [hold] at hold'
        exact (Option.some.inj hold').symm
      subst this
      rw [hout, hfiles] at h
      rcases h with ⟨e, -, h2⟩ | ⟨image, e, -, -, h2⟩ | ⟨image, h1, h2⟩
      · simp at h2
      · simp at h2
      · simp only [Prod.mk.injEq, Except.ok.injEq] at h2
        obtain ⟨h2, h3⟩ := h2
        have hok := replacedImages_ok env files old'.image image s hne h1
        subst h2 h3
        refine ⟨hok.1, hok.1.length_eq.symm, ?_, hok.2.1, hok.2.2.1, hok.2.2.2.1⟩
        exact find?_map_replace (fun t : TestDoc => t._id) s.tests (env.castId id) old' _ hold rfl
  · intro req files old user s' hold hfiles hne hout
    rcases updateUserData_cases env req id s with ⟨-, e, h2⟩ | ⟨old', hold', h⟩
    · rw [hout] at h2
      simp at h2
    · have : old' = old := by
        rw [hold] at hold'
        exact (Option.some.inj hold').symm
      subst this
      rw [hout, hfiles] at h
      rcases h with ⟨e, -, h2⟩ | ⟨images, e, -, -, h2⟩ | ⟨images, h1, h2⟩
      · simp at h2
      · simp at h2
      · simp only [Prod.mk.injEq, Except.ok.injEq] at h2
        obtain ⟨h2, h3⟩ := h2
        have hok := replacedImages_ok env files old'.image images s hne h1
        subst h2 h3
        refine ⟨hok.1, hok.1.length_eq.symm, ?_, hok.2.1, hok.2.2.1, hok.2.2.2.1⟩
        exact find?_map_replace (fun u : UserDoc => u._id) s.users (env.castId id) old' _ hold rfl

/-- C2, witness: the image of the test and of the user of the sample store
replaced by a new attachment `c`. -/
theorem update_replaces_images_witness :
    (∃ test s',
      updateTestData sampleEnv (sampleTestReq "widget" (.array [sampleFile "c"]))
        "00000000000000000000000a" sampleStore = (.ok test, s') ∧
      test.image.length = 1 ∧ "a" ∉ s'.assets ∧ "c" ∈ s'.assets) ∧
    (∃ user s',
      updateUserData sampleEnv (sampleUserReq "widget" (.array [sampleFile "c"]))
        "00000000000000000000000b" sampleStore = (.ok user, s') ∧
      user.image.length = 1 ∧ "b" ∉ s'.assets ∧ "c" ∈ s'.assets) := by
  have ht := (update_replaces_images sampleEnv "00000000000000000000000a" sampleStore).1
    (sampleTestReq "widget" (.array [sampleFile "c"])) [sampleFile "c"] _ _ _
    (by rfl) rfl (by decide) (by rfl)
  have hu := (update_replaces_images sampleEnv "00000000000000000000000b" sampleStore).2
    (sampleUserReq "widget" (.array [sampleFile "c"])) [sampleFile "c"] _ _ _
    (by rfl) rfl (by decide) (by rfl)
  exact ⟨⟨_, _, rfl, ht.2.1, ht.2.2.2.2.1 (sampleImage "a") (by decide),
      ht.2.2.2.2.2 { public_id := "c", url := "https://assets/c", originalname := "c.png" }
        (by decide) (by decide)⟩,
    ⟨_, _, rfl, hu.2.1, hu.2.2.2.2.1 (sampleImage "b") (by decide),
      hu.2.2.2.2.2 { public_id := "c", url := "https://assets/c", originalname := "c.png" }
        (by decide) (by decide)⟩⟩

/-! ## C5: the duplicate check of create -/

/-- C5, on the code: with a record named `widget` stored, `createTestData` /
`CreateUserData` called with the name `Widget` and one attachment finds no
duplicate under the collation `{ locale: "en" }`, uploads the attachment and
persists a second record next to the first. -/
theorem create_accepts_case_variant :
    (∃ test s',
      createTestData sampleEnv (sampleTestReq "Widget" (.array [sampleFile "c"]))
        sampleStore = (.ok test, s') ∧
      s'.tests.map (fun t => t.test) = ["widget", "Widget"]) ∧
    (∃ user s',
      CreateUserData sampleEnv (sampleUserReq "Widget" (.array [sampleFile "c"]))
        sampleStore = (.ok user, s') ∧
      s'.users.map (fun u => u.name) = ["widget", "Widget"]) :=
  ⟨⟨_, _, rfl, rfl⟩, ⟨_, _, rfl, rfl⟩⟩

/-! ## C6: the duplicate check of update -/

/-- C6, on the code: with the records `a.c` and `abc` stored, updating the
first with its own unchanged name fails with the duplicate error and changes
nothing, the name being read as a pattern in which `.` stands for any
character. -/
theorem update_own_name_duplicate :
    updateTestData sampleEnv (sampleTestReq "a.c" .absent)
      "00000000000000000000000a" dottedStore
      = (.error (.errorHandler "Duplicate test"), dottedStore) ∧
    updateUserData sampleEnv (sampleUserReq "a.c" .absent)
      "00000000000000000000000b" dottedStore
      = (.error (.errorHandler "Duplicate name"), dottedStore) :=
  ⟨rfl, rfl⟩

/-! ## C8: create without attachments -/

/-- C8, counterexample: with a record named `widget` stored, `createTestData`
called with that name and no attachments fails with the duplicate error, not
with the at-least-one-image error. -/
theorem duplicate_before_image_check :
    ¬ ((createTestData sampleEnv (sampleTestReq "widget" .absent) sampleStore).1
        = .error (.errorHandler "At least one image is required")) := by
  have h : (createTestData sampleEnv (sampleTestReq "widget" .absent) sampleStore).1
      = .error (.errorHandler "Duplicate test") := rfl
  rw [h]
  simp

/-- C8, amended: `createTestData` / `CreateUserData` runs the uniqueness check
first; called with no attachments (`req.files` absent, not an array or empty)
it fails with the duplicate error when a stored record's name matches the
submitted one under the collation, and with the at-least-one-image error when
none does; in both cases the store is left as it was: no record is persisted
and the asset service receives no call. -/
theorem create_without_attachments (env : Env) (s : Store) :
    (∀ req : TestReq,
      (req.files = .absent ∨ req.files = .notArray ∨ req.files = .array []) →
        (createTestData env req s).2 = s ∧
        ((∃ t ∈ s.tests, env.collationEq t.test req.body.test = true) →
          (createTestData env req s).1 = .error (.errorHandler "Duplicate test")) ∧
        ((∀ t ∈ s.tests, env.collationEq t.test req.body.test = false) →
          (createTestData env req s).1
            = .error (.errorHandler "At least one image is required"))) ∧
    (∀ req : UserReq,
      (req.files = .absent ∨ req.files = .notArray ∨ req.files = .array []) →
        (CreateUserData env req s).2 = s ∧
        ((∃ u ∈ s.users, env.collationEq u.name req.body.name = true) →
          (CreateUserData env req s).1 = .error (.errorHandler "Duplicate name")) ∧
        ((∀ u ∈ s.users, env.collationEq u.name req.body.name = false) →
          (CreateUserData env req s).1
            = .error (.errorHandler "At least one image is required"))) := by
  constructor
  · intro req hfiles
    have hup : uploadedImages env req.files s = (some [], s) := by
      rcases hfiles with h | h | h <;> simp [h, uploadedImages, uploadAll]
    unfold createTestData
    cases hdup : s.tests.find? (fun t => env.collationEq t.test req.body.test) with
    | some dup =>
      refine ⟨rfl, fun _ => rfl, ?_⟩
      intro hall
      have := List.find?_some hdup
      have hm := List.mem_of_find?_eq_some hdup
      rw [hall dup hm] at this
      simp at this
    | none =>
      simp only [hup, STATUSCODE_ZERO, List.length_nil, if_true, true_and, implies_true,
        and_true]
      rintro ⟨t, ht, hc⟩
      rw [List.find?_eq_none] at hdup
      exact absurd hc (hdup t ht)
  · intro req hfiles
    have hup : uploadedImages env req.files s = (some [], s) := by
      rcases hfiles with h | h | h <;> simp [h, uploadedImages, uploadAll]
    unfold CreateUserData
    cases hdup : s.users.find? (fun u => env.collationEq u.name req.body.name) with
    | some dup =>
      refine ⟨rfl, fun _ => rfl, ?_⟩
      intro hall
      have := List.find?_some hdup
      have hm := List.mem_of_find?_eq_some hdup
      rw [hall dup hm] at this
      simp at this
    | none =>
      simp only [hup, STATUSCODE_ZERO, List.length_nil, if_true, true_and, implies_true,
        and_true]
      rintro ⟨u, hu, hc⟩
      rw [List.find?_eq_none] at hdup
      exact absurd hc (hdup u hu)

/-- C8, witness: a stored and a new name submitted without attachments. -/
theorem create_without_attachments_witness :
    (createTestData sampleEnv (sampleTestReq "widget" (.array [])) sampleStore).1
      = .error (.errorHandler "Duplicate test") ∧
    (createTestData sampleEnv (sampleTestReq "gadget" (.array [])) sampleStore).1
      = .error (.errorHandler "At least one image is required") ∧
    (CreateUserData sampleEnv (sampleUserReq "widget" .absent) sampleStore).1
      = .error (.errorHandler "Duplicate name") ∧
    (CreateUserData sampleEnv (sampleUserReq "gadget" .absent) sampleStore).1
      = .error (.errorHandler "At least one image is required") :=
  ⟨((create_without_attachments sampleEnv sampleStore).1
      (sampleTestReq "widget" (.array [])) (Or.inr (Or.inr rfl))).2.1
      ⟨_, List.mem_singleton.2 rfl, by rfl⟩,
   ((create_without_attachments sampleEnv sampleStore).1
      (sampleTestReq "gadget" (.array [])) (Or.inr (Or.inr rfl))).2.2 (by decide),
   ((create_without_attachments sampleEnv sampleStore).2
      (sampleUserReq "widget" .absent) (Or.inl rfl)).2.1
      ⟨_, List.mem_singleton.2 rfl, by rfl⟩,
   ((create_without_attachments sampleEnv sampleStore).2
      (sampleUserReq "gadget" .absent) (Or.inl rfl)).2.2 (by decide)⟩

/-! ## C7: asset liveness -/

/-- C7, counterexample: in stores where every image entry names an object held
by the asset service, (1) an update with a new attachment whose final write is
refused by the validators has already deleted the old asset, and the record,
left unwritten, points at it; (2) a successful update whose attachment is
stored under the `public_id` of the old image leaves the record pointing at an
object deleted with the old images; (3) deleting a test whose image is also
listed by a user leaves that user pointing at the deleted object; (4) a delete
whose `deleteOne` the database rejects has deleted the asset all the same, and
the record, still stored, points at it. -/
theorem liveness_broken :
    (Live sampleStore ∧
      (updateTestData sampleEnv (sampleTestReq longName (.array [sampleFile "c"]))
        "00000000000000000000000a" sampleStore).1 = .error .validation ∧
      ¬ Live (updateTestData sampleEnv (sampleTestReq longName (.array [sampleFile "c"]))
        "00000000000000000000000a" sampleStore).2) ∧
    (¬ Live (updateTestData sampleEnv (sampleTestReq "widget" (.array [sampleFile "a"]))
        "00000000000000000000000a" sampleStore).2) ∧
    (Live sharedStore ∧
      ¬ Live (deleteTestData sampleEnv "00000000000000000000000a" sharedStore).2) ∧
    ((deleteTestData readOnlyEnv "00000000000000000000000a" sampleStore).1
        = .error .databaseRejected ∧
      ¬ Live (deleteTestData readOnlyEnv "00000000000000000000000a" sampleStore).2) := by
  refine ⟨⟨by decide, rfl, by decide⟩, by decide, ⟨by decide, by decide⟩, rfl, by decide⟩

theorem files_cases (files : Files) :
    (files = .absent ∨ files = .notArray ∨ files = .array []) ∨
    ∃ file rest, files = .array (file :: rest) := by
  cases files with
  | absent => exact Or.inl (Or.inl rfl)
  | notArray => exact Or.inl (Or.inr (Or.inl rfl))
  | array l =>
    cases l with
    | nil => exact Or.inl (Or.inr (Or.inr rfl))
    | cons file rest => exact Or.inr ⟨file, rest, rfl⟩

theorem live_of_assets (s s' : Store) (h : Live s) (ht : s'.tests = s.tests)
    (hu : s'.users = s.users) (ha : ∀ a ∈ s.assets, a ∈ s'.assets) : Live s' := by
  unfold Live at h ⊢
  rw [ht, hu]
  exact ⟨fun t htm image him => ha _ (h.1 t htm image him),
    fun u hum image him => ha _ (h.2 u hum image him)⟩

theorem uploadedImages_frame (env : Env) (files : Files) (s : Store) :
    (uploadedImages env files s).2.tests = s.tests ∧
    (uploadedImages env files s).2.users = s.users ∧
    ∀ a ∈ s.assets, a ∈ (uploadedImages env files s).2.assets := by
  unfold uploadedImages
  split
  · rename_i l
    have h := uploadAll_frame env l s
    exact ⟨h.1, h.2.1, fun a ha => uploadAll_assets env l s a ha⟩
  · exact ⟨rfl, rfl, fun a ha => ha⟩

theorem uploadedImages_some (env : Env) (files : Files) (s : Store) (images : List Image)
    (h : (uploadedImages env files s).1 = some images) :
    ∀ image ∈ images, image.public_id ∈ (uploadedImages env files s).2.assets := by
  unfold uploadedImages at h ⊢
  split at h
  · rename_i l
    exact (uploadAll_some env l s images h).2
  · simp only [Option.some.injEq] at h
    subst h
    simp

theorem collides_uploaded (env : Env) (existing : List Image) (files : List File)
    (images : List Image) (hc : collides env existing (.array files) = false)
    (h : List.Forall₂ (Uploaded env) files images) :
    ∀ image ∈ images, image.public_id ∉ existing.map (fun image => image.public_id) := by
  induction h with
  | nil => simp
  | cons hhead _ ih =>
    rename_i file image rest others
    simp only [collides, List.any_cons, Bool.or_eq_false_iff] at hc ih
    obtain ⟨result, hres, himage⟩ := hhead
    intro im him
    rcases List.mem_cons.1 him with rfl | him
    · have h1 := hc.1
      rw [hres] at h1
      subst himage
      simpa using h1
    · exact ih hc.2 im him

theorem replacedImages_error (env : Env) (files : Files) (existing : List Image) (s : Store)
    (e : Failure) (h : (replacedImages env files existing s).1 = .error e) :
    ∀ a ∈ s.assets, a ∈ (replacedImages env files existing s).2.assets := by
  unfold replacedImages at h ⊢
  split at h
  · rename_i file rest
    dsimp only at h ⊢
    split at h
    · exact fun a ha => uploadAll_assets env _ s a ha
    · rename_i image hup
      split at h
      · simp at h
      · rename_i hdel
        rw [if_neg hdel]
        intro a ha
        refine (delete_resources_assets env _ _ a).2 ⟨uploadAll_assets env _ s a ha, ?_⟩
        intro hd
        exact absurd hd hdel
  · simp at h

theorem replacedImages_keeps (env : Env) (files : Files) (existing images : List Image)
    (s : Store) (hlive : ∀ image ∈ existing, image.public_id ∈ s.assets)
    (hc : collides env existing files = false)
    (h : (replacedImages env files existing s).1 = .ok images) :
    (∀ image ∈ images, image.public_id ∈ (replacedImages env files existing s).2.assets) ∧
    (∀ a ∈ s.assets, a ∉ existing.map (fun image => image.public_id) →
      a ∈ (replacedImages env files existing s).2.assets) := by
  rcases files_cases files with hno | ⟨file, rest, hfiles⟩
  · rw [replacedImages_without env files existing s hno] at h ⊢
    simp only [Except.ok.injEq] at h
    subst h
    exact ⟨hlive, fun a ha _ => ha⟩
  · subst hfiles
    have hok := replacedImages_ok env (file :: rest) existing images s (by simp) h
    have hfresh := collides_uploaded env existing (file :: rest) images hc hok.1
    exact ⟨fun image him => hok.2.2.2.1 image him (hfresh image him), hok.2.2.2.2⟩

theorem createTestData_live (env : Env) (req : TestReq) (s : Store) (h : Live s) :
    Live (createTestData env req s).2 := by
  have hf := uploadedImages_frame env req.files s
  have hbase : Live (uploadedImages env req.files s).2 :=
    live_of_assets s _ h hf.1 hf.2.1 hf.2.2
  unfold createTestData
  cases hdup : s.tests.find? (fun t => env.collationEq t.test req.body.test) with
  | some dup => exact h
  | none =>
    dsimp only
    cases hup : (uploadedImages env req.files s).1 with
    | none => exact hbase
    | some image =>
      dsimp only
      split
      · exact hbase
      · split
        · exact hbase
        · split
          · exact hbase
          · have hnew := uploadedImages_some env req.files s image hup
            unfold Live at hbase ⊢
            refine ⟨?_, hbase.2⟩
            intro t ht
            simp only [List.mem_append, List.mem_singleton] at ht
            rcases ht with ht | rfl
            · exact hbase.1 t ht
            · exact hnew

theorem CreateUserData_live (env : Env) (req : UserReq) (s : Store) (h : Live s) :
    Live (CreateUserData env req s).2 := by
  have hf := uploadedImages_frame env req.files s
  have hbase : Live (uploadedImages env req.files s).2 :=
    live_of_assets s _ h hf.1 hf.2.1 hf.2.2
  unfold CreateUserData
  cases hdup : s.users.find? (fun u => env.collationEq u.name req.body.name) with
  | some dup => exact h
  | none =>
    dsimp only
    cases hup : (uploadedImages env req.files s).1 with
    | none => exact hbase
    | some images =>
      dsimp only
      split
      · exact hbase
      · split
        · exact hbase
        · split
          · exact hbase
          · have hnew := uploadedImages_some env req.files s images hup
            unfold Live at hbase ⊢
            refine ⟨hbase.1, ?_⟩
            intro u hu
            simp only [List.mem_append, List.mem_singleton] at hu
            rcases hu with hu | rfl
            · exact hbase.2 u hu
            · exact hnew

theorem deleteTestData_live (env : Env) (id : String) (s : Store) (hL : Live s)
    (hE : Exclusive s) (hU : UniqueIds s)
    (hw : env.writeResolves (.deleteTest (env.castId id)) = true) :
    Live (deleteTestData env id s).2 := by
  rcases deleteTestData_cases env id s with ⟨h1, -⟩ | ⟨found, -, hf, hstore, -⟩
  · rw [h1]
    exact hL
  · have hk := find?_key_some (fun t : TestDoc => t._id) s.tests (env.castId id) found hf
    have hp := afterDeleteTest_props env id found s
    rw [hw, if_pos rfl] at hp
    rw [hstore]
    unfold Live
    rw [hp.1, hp.2.1]
    constructor
    · intro t ht image him
      have hm := (mem_eraseP_key (fun t : TestDoc => t._id) s.tests (env.castId id) hU.1 t).1 ht
      refine (hp.2.2.2.2.2 _).2 ⟨hL.1 t hm.1 image him, fun _ hin => ?_⟩
      obtain ⟨y, hy, hyp⟩ := List.mem_map.1 hin
      exact hE.1 t hm.1 found hk.1 (fun heq => hm.2 (heq.trans hk.2)) image him y hy hyp.symm
    · intro u hu image him
      refine (hp.2.2.2.2.2 _).2 ⟨hL.2 u hu image him, fun _ hin => ?_⟩
      obtain ⟨y, hy, hyp⟩ := List.mem_map.1 hin
      exact hE.2.2 found hk.1 u hu y hy image him hyp

theorem deleteUserData_live (env : Env) (id : String) (s : Store) (hL : Live s)
    (hE : Exclusive s) (hU : UniqueIds s)
    (hw : env.writeResolves (.deleteUser (env.castId id)) = true) :
    Live (deleteUserData env id s).2 := by
  rcases deleteUserData_cases env id s with ⟨h1, -⟩ | ⟨found, -, hf, hstore, -⟩
  · rw [h1]
    exact hL
  · have hk := find?_key_some (fun u : UserDoc => u._id) s.users (env.castId id) found hf
    have hp := afterDeleteUser_props env id found s
    rw [hw, if_pos rfl] at hp
    rw [hstore]
    unfold Live
    rw [hp.1, hp.2.1]
    constructor
    · intro t ht image him
      refine (hp.2.2.2.2.2 _).2 ⟨hL.1 t ht image him, fun _ hin => ?_⟩
      obtain ⟨y, hy, hyp⟩ := List.mem_map.1 hin
      exact hE.2.2 t ht found hk.1 image him y hy hyp.symm
    · intro u hu image him
      have hm := (mem_eraseP_key (fun u : UserDoc => u._id) s.users (env.castId id) hU.2 u).1 hu
      refine (hp.2.2.2.2.2 _).2 ⟨hL.2 u hm.1 image him, fun _ hin => ?_⟩
      obtain ⟨y, hy, hyp⟩ := List.mem_map.1 hin
      exact hE.2.1 u hm.1 found hk.1 (fun heq => hm.2 (heq.trans hk.2)) image him y hy hyp.symm

theorem updateTestData_live (env : Env) (req : TestReq) (id : String) (s : Store)
    (hL : Live s) (hE : Exclusive s)
    (hc : ∀ old, s.tests.find? (fun t => t._id == env.castId id) = some old →
      collides env old.image req.files = false)
    (hv : (req.files = .absent ∨ req.files = .notArray ∨ req.files = .array []) ∨
      ((updateTestData env req id s).1 ≠ .error .validation ∧
       (updateTestData env req id s).1 ≠ .error .databaseRejected)) :
    Live (updateTestData env req id s).2 := by
  rcases updateTestData_cases env req id s with ⟨h1, -⟩ | ⟨old, hold, h⟩
  · rw [h1]
    exact hL
  · have hfr := replacedImages_frame env req.files old.image s
    have hk := find?_key_some (fun t : TestDoc => t._id) s.tests (env.castId id) old hold
    rcases h with ⟨e, h1, h2⟩ | ⟨image, e, h1, he, h2⟩ | ⟨image, h1, h2⟩
    · rw [h2]
      exact live_of_assets s _ hL hfr.1 hfr.2.1 (replacedImages_error env _ _ s e h1)
    · rcases hv with hno | hne
      · rw [h2, replacedImages_without env req.files old.image s hno]
        exact hL
      · rw [h2] at hne
        rcases he with rfl | rfl
        · exact absurd rfl hne.1
        · exact absurd rfl hne.2
    · have hkeep := replacedImages_keeps env req.files old.image image s
        (hL.1 old hk.1) (hc old hold) h1
      rw [h2]
      unfold Live
      dsimp only
      rw [hfr.2.1]
      constructor
      · intro t' ht' im him
        obtain ⟨t, ht, rfl⟩ := List.mem_map.1 ht'
        by_cases hid : t._id = env.castId id
        · have hb : (t._id == env.castId id) = true := by simpa using hid
          rw [hb, if_pos rfl] at him
          exact hkeep.1 im him
        · have hb : (t._id == env.castId id) = false := by simpa using hid
          rw [hb] at him
          simp only [Bool.false_eq_true, if_false] at him
          refine hkeep.2 _ (hL.1 t ht im him) (fun hin => ?_)
          obtain ⟨y, hy, hyp⟩ := List.mem_map.1 hin
          exact hE.1 t ht old hk.1 (fun heq => hid (heq.trans hk.2)) im him y hy hyp.symm
      · intro u hu im him
        refine hkeep.2 _ (hL.2 u hu im him) (fun hin => ?_)
        obtain ⟨y, hy, hyp⟩ := List.mem_map.1 hin
        exact hE.2.2 old hk.1 u hu y hy im him hyp

theorem updateUserData_live (env : Env) (req : UserReq) (id : String) (s : Store)
    (hL : Live s) (hE : Exclusive s)
    (hc : ∀ old, s.users.find? (fun u => u._id == env.castId id) = some old →
      collides env old.image req.files = false)
    (hv : (req.files = .absent ∨ req.files = .notArray ∨ req.files = .array []) ∨
      ((updateUserData env req id s).1 ≠ .error .validation ∧
       (updateUserData env req id s).1 ≠ .error .databaseRejected)) :
    Live (updateUserData env req id s).2 := by
  rcases updateUserData_cases env req id s with ⟨h1, -⟩ | ⟨old, hold, h⟩
  · rw [h1]
    exact hL
  · have hfr := replacedImages_frame env req.files old.image s
    have hk := find?_key_some (fun u : UserDoc => u._id) s.users (env.castId id) old hold
    rcases h with ⟨e, h1, h2⟩ | ⟨images, e, h1, he, h2⟩ | ⟨images, h1, h2⟩
    · rw [h2]
      exact live_of_assets s _ hL hfr.1 hfr.2.1 (replacedImages_error env _ _ s e h1)
    · rcases hv with hno | hne
      · rw [h2, replacedImages_without env req.files old.image s hno]
        exact hL
      · rw [h2] at hne
        rcases he with rfl | rfl
        · exact absurd rfl hne.1
        · exact absurd rfl hne.2
    · have hkeep := replacedImages_keeps env req.files old.image images s
        (hL.2 old hk.1) (hc old hold) h1
      rw [h2]
      unfold Live
      dsimp only
      rw [hfr.1]
      constructor
      · intro t ht im him
        refine hkeep.2 _ (hL.1 t ht im him) (fun hin => ?_)
        obtain ⟨y, hy, hyp⟩ := List.mem_map.1 hin
        exact hE.2.2 t ht old hk.1 im him y hy hyp.symm
      · intro u' hu' im him
        obtain ⟨u, hu, rfl⟩ := List.mem_map.1 hu'
        by_cases hid : u._id = env.castId id
        · have hb : (u._id == env.castId id) = true := by simpa using hid
          rw [hb, if_pos rfl] at him
          exact hkeep.1 im him
        · have hb : (u._id == env.castId id) = false := by simpa using hid
          rw [hb] at him
          simp only [Bool.false_eq_true, if_false] at him
          refine hkeep.2 _ (hL.2 u hu im him) (fun hin => ?_)
          obtain ⟨y, hy, hyp⟩ := List.mem_map.1 hin
          exact hE.2.1 u hu old hk.1 (fun heq => hid (heq.trans hk.2)) im him y hy hyp.symm

theorem referenced_false (s : Store) (p : String) (h : referenced s p = false) :
    (∀ t ∈ s.tests, ∀ x ∈ t.image, x.public_id ≠ p) ∧
    (∀ u ∈ s.users, ∀ x ∈ u.image, x.public_id ≠ p) := by
  simp only [referenced, Bool.or_eq_false_iff, List.any_eq_false, List.any_eq_true,
    beq_iff_eq, not_exists, not_and] at h
  exact ⟨fun t ht x hx => h.1 t ht x hx, fun u hu x hx => h.2 u hu x hx⟩

theorem fresh_uploaded (env : Env) (s : Store) (files : List File) (images : List Image)
    (hfresh : freshUploads env s (.array files) = true)
    (h : List.Forall₂ (Uploaded env) files images) :
    ∀ image ∈ images, referenced s image.public_id = false := by
  induction h with
  | nil => simp
  | cons hhead _ ih =>
    rename_i file image rest others
    simp only [freshUploads, List.all_cons, Bool.and_eq_true] at hfresh ih
    obtain ⟨result, hres, himage⟩ := hhead
    intro im him
    rcases List.mem_cons.1 him with rfl | him
    · have h1 := hfresh.1
      rw [hres] at h1
      subst himage
      simpa using h1
    · exact ih hfresh.2 im him

theorem uploadedImages_fresh (env : Env) (files : Files) (s : Store) (images : List Image)
    (hfresh : freshUploads env s files = true)
    (h : (uploadedImages env files s).1 = some images) :
    ∀ image ∈ images, referenced s image.public_id = false := by
  unfold uploadedImages at h
  split at h
  · rename_i l
    exact fresh_uploaded env s l images hfresh (uploadAll_some env l s images h).1
  · simp only [Option.some.injEq] at h
    subst h
    simp

theorem replacedImages_fresh (env : Env) (files : Files) (existing images : List Image)
    (s : Store) (hfresh : freshUploads env s files = true)
    (h : (replacedImages env files existing s).1 = .ok images) :
    ∀ image ∈ images, image ∈ existing ∨ referenced s image.public_id = false := by
  rcases files_cases files with hno | ⟨file, rest, hfiles⟩
  · rw [replacedImages_without env files existing s hno] at h
    simp only [Except.ok.injEq] at h
    subst h
    exact fun image him => Or.inl him
  · subst hfiles
    have hok := replacedImages_ok env (file :: rest) existing images s (by simp) h
    exact fun image him => Or.inr (fresh_uploaded env s _ images hfresh hok.1 image him)

/-- Exclusive ownership survives a change of the tests in which every image of
a test is one that a test with the same id listed before, or is a new image,
referenced by nobody, of the one test `oid`. -/
theorem exclusive_tests_of (s s' : Store) (oid : ObjectId) (hE : Exclusive s)
    (hu : s'.users = s.users)
    (h : ∀ a' ∈ s'.tests, ∀ x ∈ a'.image,
      (∃ c ∈ s.tests, c._id = a'._id ∧ x ∈ c.image) ∨
      (a'._id = oid ∧ referenced s x.public_id = false)) : Exclusive s' := by
  unfold Exclusive
  rw [hu]
  refine ⟨?_, hE.2.1, ?_⟩
  · intro a ha b hb hne x hx y hy
    rcases h a ha x hx with ⟨c, hc, hcid, hxc⟩ | ⟨haid, hxf⟩
    · rcases h b hb y hy with ⟨d, hd, hdid, hyd⟩ | ⟨-, hyf⟩
      · exact hE.1 c hc d hd (fun heq => hne (hcid.symm.trans (heq.trans hdid))) x hxc y hyd
      · exact (referenced_false s _ hyf).1 c hc x hxc
    · rcases h b hb y hy with ⟨d, hd, -, hyd⟩ | ⟨hbid, -⟩
      · exact fun heq => (referenced_false s _ hxf).1 d hd y hyd heq.symm
      · exact absurd (haid.trans hbid.symm) hne
  · intro a ha b hb x hx y hy
    rcases h a ha x hx with ⟨c, hc, -, hxc⟩ | ⟨-, hxf⟩
    · exact hE.2.2 c hc b hb x hxc y hy
    · exact fun heq => (referenced_false s _ hxf).2 b hb y hy heq.symm

/-- Exclusive ownership survives a change of the users, as for the tests. -/
theorem exclusive_users_of (s s' : Store) (oid : ObjectId) (hE : Exclusive s)
    (ht : s'.tests = s.tests)
    (h : ∀ a' ∈ s'.users, ∀ x ∈ a'.image,
      (∃ c ∈ s.users, c._id = a'._id ∧ x ∈ c.image) ∨
      (a'._id = oid ∧ referenced s x.public_id = false)) : Exclusive s' := by
  unfold Exclusive
  rw [ht]
  refine ⟨hE.1, ?_, ?_⟩
  · intro a ha b hb hne x hx y hy
    rcases h a ha x hx with ⟨c, hc, hcid, hxc⟩ | ⟨haid, hxf⟩
    · rcases h b hb y hy with ⟨d, hd, hdid, hyd⟩ | ⟨-, hyf⟩
      · exact hE.2.1 c hc d hd (fun heq => hne (hcid.symm.trans (heq.trans hdid))) x hxc y hyd
      · exact (referenced_false s _ hyf).2 c hc x hxc
    · rcases h b hb y hy with ⟨d, hd, -, hyd⟩ | ⟨hbid, -⟩
      · exact fun heq => (referenced_false s _ hxf).2 d hd y hyd heq.symm
      · exact absurd (haid.trans hbid.symm) hne
  · intro a ha b hb x hx y hy
    rcases h b hb y hy with ⟨c, hc, -, hyc⟩ | ⟨-, hyf⟩
    · exact hE.2.2 a ha c hc x hx y hyc
    · exact (referenced_false s _ hyf).1 a ha x hx

theorem exclusive_of_eq (s s' : Store) (hE : Exclusive s) (ht : s'.tests = s.tests)
    (hu : s'.users = s.users) : Exclusive s' := by
  unfold Exclusive at hE ⊢
  rw [ht, hu]
  exact hE

theorem uniqueIds_of_eq (s s' : Store) (hU : UniqueIds s) (ht : s'.tests = s.tests)
    (hu : s'.users = s.users) : UniqueIds s' := by
  unfold UniqueIds at hU ⊢
  rw [ht, hu]
  exact hU

theorem nodup_map_eraseP {α : Type} (key : α → ObjectId) (l : List α) (p : α → Bool)
    (h : (l.map key).Nodup) : ((l.eraseP p).map key).Nodup :=
  h.sublist ((List.eraseP_sublist l).map key)

theorem map_key_replace {α : Type} (key : α → ObjectId) (l : List α) (id : ObjectId)
    (new : α) (hnew : key new = id) :
    (l.map (fun a => if key a == id then new else a)).map key = l.map key := by
  rw [List.map_map]
  apply List.map_congr_left
  intro a _
  by_cases ha : key a = id
  · simp [ha, hnew]
  · simp [ha]

/-- The records a `createTestData` call leaves: the ones it found, or those and
the created test, whose images are the uploaded ones. -/
theorem createTestData_cases (env : Env) (req : TestReq) (s : Store) :
    (createTestData env req s).2.users = s.users ∧
    ((createTestData env req s).2.tests = s.tests ∨
     ∃ image, (uploadedImages env req.files s).1 = some image ∧
       (createTestData env req s).2.tests
         = s.tests ++ [testFields (env.newId (s.tests.map (fun t => t._id))) req.body image]) := by
  have hf := uploadedImages_frame env req.files s
  unfold createTestData
  cases hdup : s.tests.find? (fun t => env.collationEq t.test req.body.test) with
  | some dup => exact ⟨rfl, Or.inl rfl⟩
  | none =>
    dsimp only
    cases hup : (uploadedImages env req.files s).1 with
    | none => exact ⟨hf.2.1, Or.inl hf.1⟩
    | some image =>
      dsimp only
      split
      · exact ⟨hf.2.1, Or.inl hf.1⟩
      · split
        · exact ⟨hf.2.1, Or.inl hf.1⟩
        · split
          · exact ⟨hf.2.1, Or.inl hf.1⟩
          · refine ⟨hf.2.1, Or.inr ⟨image, rfl, ?_⟩⟩
            simp only [hf.1]

/-- The records a `CreateUserData` call leaves, as for `createTestData`. -/
theorem CreateUserData_cases (env : Env) (req : UserReq) (s : Store) :
    (CreateUserData env req s).2.tests = s.tests ∧
    ((CreateUserData env req s).2.users = s.users ∨
     ∃ images, (uploadedImages env req.files s).1 = some images ∧
       (CreateUserData env req s).2.users
         = s.users ++ [{ _id := env.newId (s.users.map (fun u => u._id)),
                         name := req.body.name, email := req.body.email,
                         password := env.hash req.body.password,
                         roles := (rolesOfBody req.body.roles).getD [env.customer],
                         image := images }]) := by
  have hf := uploadedImages_frame env req.files s
  unfold CreateUserData
  cases hdup : s.users.find? (fun u => env.collationEq u.name req.body.name) with
  | some dup => exact ⟨rfl, Or.inl rfl⟩
  | none =>
    dsimp only
    cases hup : (uploadedImages env req.files s).1 with
    | none => exact ⟨hf.1, Or.inl hf.2.1⟩
    | some images =>
      dsimp only
      split
      · exact ⟨hf.1, Or.inl hf.2.1⟩
      · split
        · exact ⟨hf.1, Or.inl hf.2.1⟩
        · split
          · exact ⟨hf.1, Or.inl hf.2.1⟩
          · refine ⟨hf.1, Or.inr ⟨images, rfl, ?_⟩⟩
            simp only [hf.2.1]

theorem createTestData_owned (env : Env) (req : TestReq) (s : Store)
    (hE : Exclusive s) (hU : UniqueIds s) :
    (freshUploads env s req.files = true → Exclusive (createTestData env req s).2) ∧
    (env.newId (s.tests.map (fun t => t._id)) ∉ s.tests.map (fun t => t._id) →
      UniqueIds (createTestData env req s).2) := by
  obtain ⟨hu, ht | ⟨image, hup, ht⟩⟩ := createTestData_cases env req s
  · exact ⟨fun _ => exclusive_of_eq s _ hE ht hu, fun _ => uniqueIds_of_eq s _ hU ht hu⟩
  · constructor
    · intro hfresh
      have hnew := uploadedImages_fresh env req.files s image hfresh hup
      refine exclusive_tests_of s _ (env.newId (s.tests.map (fun t => t._id))) hE hu ?_
      intro a' ha' x hx
      rw [ht] at ha'
      simp only [List.mem_append, List.mem_singleton] at ha'
      rcases ha' with ha' | rfl
      · exact Or.inl ⟨a', ha', rfl, hx⟩
      · exact Or.inr ⟨rfl, hnew x hx⟩
    · intro hid
      unfold UniqueIds at hU ⊢
      rw [ht, hu]
      refine ⟨?_, hU.2⟩
      rw [List.map_append, List.nodup_append]
      refine ⟨hU.1, by simp, ?_⟩
      intro a ha hb
      simp only [List.map_cons, List.map_nil, List.mem_singleton, testFields] at hb
      subst hb
      exact hid ha

theorem CreateUserData_owned (env : Env) (req : UserReq) (s : Store)
    (hE : Exclusive s) (hU : UniqueIds s) :
    (freshUploads env s req.files = true → Exclusive (CreateUserData env req s).2) ∧
    (env.newId (s.users.map (fun u => u._id)) ∉ s.users.map (fun u => u._id) →
      UniqueIds (CreateUserData env req s).2) := by
  obtain ⟨ht, hu | ⟨images, hup, hu⟩⟩ := CreateUserData_cases env req s
  · exact ⟨fun _ => exclusive_of_eq s _ hE ht hu, fun _ => uniqueIds_of_eq s _ hU ht hu⟩
  · constructor
    · intro hfresh
      have hnew := uploadedImages_fresh env req.files s images hfresh hup
      refine exclusive_users_of s _ (env.newId (s.users.map (fun u => u._id))) hE ht ?_
      intro a' ha' x hx
      rw [hu] at ha'
      simp only [List.mem_append, List.mem_singleton] at ha'
      rcases ha' with ha' | rfl
      · exact Or.inl ⟨a', ha', rfl, hx⟩
      · exact Or.inr ⟨rfl, hnew x hx⟩
    · intro hid
      unfold UniqueIds at hU ⊢
      rw [ht, hu]
      refine ⟨hU.1, ?_⟩
      rw [List.map_append, List.nodup_append]
      refine ⟨hU.2, by simp, ?_⟩
      intro a ha hb
      simp only [List.map_cons, List.map_nil, List.mem_singleton] at hb
      subst hb
      exact hid ha

theorem deleteTestData_owned (env : Env) (id : String) (s : Store)
    (hE : Exclusive s) (hU : UniqueIds s) :
    Exclusive (deleteTestData env id s).2 ∧ UniqueIds (deleteTestData env id s).2 := by
  rcases deleteTestData_cases env id s with ⟨h1, -⟩ | ⟨found, -, -, hstore, -⟩
  · rw [h1]
    exact ⟨hE, hU⟩
  · have hp := afterDeleteTest_props env id found s
    rw [hstore]
    cases hw : env.writeResolves (.deleteTest (env.castId id))
    · rw [hw] at hp
      exact ⟨exclusive_of_eq s _ hE hp.1 hp.2.1, uniqueIds_of_eq s _ hU hp.1 hp.2.1⟩
    · rw [hw, if_pos rfl] at hp
      constructor
      · refine exclusive_tests_of s _ (env.castId id) hE hp.2.1 ?_
        intro a' ha' x hx
        rw [hp.1] at ha'
        exact Or.inl ⟨a', List.mem_of_mem_eraseP ha', rfl, hx⟩
      · unfold UniqueIds at hU ⊢
        rw [hp.1, hp.2.1]
        exact ⟨nodup_map_eraseP (fun t : TestDoc => t._id) s.tests _ hU.1, hU.2⟩

theorem deleteUserData_owned (env : Env) (id : String) (s : Store)
    (hE : Exclusive s) (hU : UniqueIds s) :
    Exclusive (deleteUserData env id s).2 ∧ UniqueIds (deleteUserData env id s).2 := by
  rcases deleteUserData_cases env id s with ⟨h1, -⟩ | ⟨found, -, -, hstore, -⟩
  · rw [h1]
    exact ⟨hE, hU⟩
  · have hp := afterDeleteUser_props env id found s
    rw [hstore]
    cases hw : env.writeResolves (.deleteUser (env.castId id))
    · rw [hw] at hp
      exact ⟨exclusive_of_eq s _ hE hp.1 hp.2.1, uniqueIds_of_eq s _ hU hp.1 hp.2.1⟩
    · rw [hw, if_pos rfl] at hp
      constructor
      · refine exclusive_users_of s _ (env.castId id) hE hp.1 ?_
        intro a' ha' x hx
        rw [hp.2.1] at ha'
        exact Or.inl ⟨a', List.mem_of_mem_eraseP ha', rfl, hx⟩
      · unfold UniqueIds at hU ⊢
        rw [hp.1, hp.2.1]
        exact ⟨hU.1, nodup_map_eraseP (fun u : UserDoc => u._id) s.users _ hU.2⟩

theorem updateTestData_owned (env : Env) (req : TestReq) (id : String) (s : Store)
    (hE : Exclusive s) (hU : UniqueIds s) :
    (freshUploads env s req.files = true → Exclusive (updateTestData env req id s).2) ∧
    UniqueIds (updateTestData env req id s).2 := by
  rcases updateTestData_cases env req id s with ⟨h1, -⟩ | ⟨old, hold, h⟩
  · rw [h1]
    exact ⟨fun _ => hE, hU⟩
  · have hfr := replacedImages_frame env req.files old.image s
    have hk := find?_key_some (fun t : TestDoc => t._id) s.tests (env.castId id) old hold
    rcases h with ⟨e, -, h2⟩ | ⟨image, e, -, -, h2⟩ | ⟨image, h1, h2⟩
    · rw [h2]
      exact ⟨fun _ => exclusive_of_eq s _ hE hfr.1 hfr.2.1, uniqueIds_of_eq s _ hU hfr.1 hfr.2.1⟩
    · rw [h2]
      exact ⟨fun _ => exclusive_of_eq s _ hE hfr.1 hfr.2.1, uniqueIds_of_eq s _ hU hfr.1 hfr.2.1⟩
    · rw [h2]
      constructor
      · intro hfresh
        have hsrc := replacedImages_fresh env req.files old.image image s hfresh h1
        refine exclusive_tests_of s _ (env.castId id) hE hfr.2.1 ?_
        intro a' ha' x hx
        obtain ⟨t, ht, rfl⟩ := List.mem_map.1 ha'
        by_cases hid : t._id = env.castId id
        · have hb : (t._id == env.castId id) = true := by simpa using hid
          rw [hb, if_pos rfl] at hx ⊢
          rcases hsrc x hx with hin | hf
          · exact Or.inl ⟨old, hk.1, hk.2, hin⟩
          · exact Or.inr ⟨rfl, hf⟩
        · have hb : (t._id == env.castId id) = false := by simpa using hid
          rw [hb] at hx ⊢
          simp only [Bool.false_eq_true, if_false] at hx ⊢
          exact Or.inl ⟨t, ht, rfl, hx⟩
      · unfold UniqueIds at hU ⊢
        dsimp only
        rw [hfr.2.1, map_key_replace (fun t : TestDoc => t._id) s.tests (env.castId id) _ rfl]
        exact hU

theorem updateUserData_owned (env : Env) (req : UserReq) (id : String) (s : Store)
    (hE : Exclusive s) (hU : UniqueIds s) :
    (freshUploads env s req.files = true → Exclusive (updateUserData env req id s).2) ∧
    UniqueIds (updateUserData env req id s).2 := by
  rcases updateUserData_cases env req id s with ⟨h1, -⟩ | ⟨old, hold, h⟩
  · rw [h1]
    exact ⟨fun _ => hE, hU⟩
  · have hfr := replacedImages_frame env req.files old.image s
    have hk := find?_key_some (fun u : UserDoc => u._id) s.users (env.castId id) old hold
    rcases h with ⟨e, -, h2⟩ | ⟨images, e, -, -, h2⟩ | ⟨images, h1, h2⟩
    · rw [h2]
      exact ⟨fun _ => exclusive_of_eq s _ hE hfr.1 hfr.2.1, uniqueIds_of_eq s _ hU hfr.1 hfr.2.1⟩
    · rw [h2]
      exact ⟨fun _ => exclusive_of_eq s _ hE hfr.1 hfr.2.1, uniqueIds_of_eq s _ hU hfr.1 hfr.2.1⟩
    · rw [h2]
      constructor
      · intro hfresh
        have hsrc := replacedImages_fresh env req.files old.image images s hfresh h1
        refine exclusive_users_of s _ (env.castId id) hE hfr.1 ?_
        intro a' ha' x hx
        obtain ⟨u, hu, rfl⟩ := List.mem_map.1 ha'
        by_cases hid : u._id = env.castId id
        · have hb : (u._id == env.castId id) = true := by simpa using hid
          rw [hb, if_pos rfl] at hx ⊢
          rcases hsrc x hx with hin | hf
          · exact Or.inl ⟨old, hk.1, hk.2, hin⟩
          · exact Or.inr ⟨rfl, hf⟩
        · have hb : (u._id == env.castId id) = false := by simpa using hid
          rw [hb] at hx ⊢
          simp only [Bool.false_eq_true, if_false] at hx ⊢
          exact Or.inl ⟨u, hu, rfl, hx⟩
      · unfold UniqueIds at hU ⊢
        dsimp only
        rw [hfr.1, map_key_replace (fun u : UserDoc => u._id) s.users (env.castId id) _ rfl]
        exact hU

/-- C7, amended: starting from a store in which every image entry of every
record names an object held by the asset service, no object is listed by two
records and ids are unique within a collection: every record still stored
names only objects held by the asset service after any `createTestData` call,
whether it succeeds or fails; after any `deleteTestData` call in which the
database does not reject the removal of the document, whether the call
succeeds or fails; and after any `updateTestData` call in which no upload
resolves with a `public_id` of the record's previous image list, provided the
call carries no new attachments or does not end in a failure of the final
write (a refusal by the validators or a rejection by the database).  Unique
ids are kept by every delete and update and by a create whose new id is
unused; exclusive ownership is kept by every delete and by every create and
update whose uploads resolve with `public_id`s no stored record lists.
Likewise for `CreateUserData`, `deleteUserData` and `updateUserData`. -/
theorem asset_liveness (env : Env) (s : Store) (hL : Live s) (hE : Exclusive s)
    (hU : UniqueIds s) :
    (∀ req,
      Live (createTestData env req s).2 ∧
      (freshUploads env s req.files = true → Exclusive (createTestData env req s).2) ∧
      (env.newId (s.tests.map (fun t => t._id)) ∉ s.tests.map (fun t => t._id) →
        UniqueIds (createTestData env req s).2)) ∧
    (∀ id,
      (env.writeResolves (.deleteTest (env.castId id)) = true →
        Live (deleteTestData env id s).2) ∧
      Exclusive (deleteTestData env id s).2 ∧ UniqueIds (deleteTestData env id s).2) ∧
    (∀ req id,
      ((∀ old, s.tests.find? (fun t => t._id == env.castId id) = some old →
          collides env old.image req.files = false) →
        ((req.files = .absent ∨ req.files = .notArray ∨ req.files = .array []) ∨
          ((updateTestData env req id s).1 ≠ .error .validation ∧
           (updateTestData env req id s).1 ≠ .error .databaseRejected)) →
        Live (updateTestData env req id s).2) ∧
      (freshUploads env s req.files = true → Exclusive (updateTestData env req id s).2) ∧
      UniqueIds (updateTestData env req id s).2) ∧
    (∀ req,
      Live (CreateUserData env req s).2 ∧
      (freshUploads env s req.files = true → Exclusive (CreateUserData env req s).2) ∧
      (env.newId (s.users.map (fun u => u._id)) ∉ s.users.map (fun u => u._id) →
        UniqueIds (CreateUserData env req s).2)) ∧
    (∀ id,
      (env.writeResolves (.deleteUser (env.castId id)) = true →
        Live (deleteUserData env id s).2) ∧
      Exclusive (deleteUserData env id s).2 ∧ UniqueIds (deleteUserData env id s).2) ∧
    (∀ req id,
      ((∀ old, s.users.find? (fun u => u._id == env.castId id) = some old →
          collides env old.image req.files = false) →
        ((req.files = .absent ∨ req.files = .notArray ∨ req.files = .array []) ∨
          ((updateUserData env req id s).1 ≠ .error .validation ∧
           (updateUserData env req id s).1 ≠ .error .databaseRejected)) →
        Live (updateUserData env req id s).2) ∧
      (freshUploads env s req.files = true → Exclusive (updateUserData env req id s).2) ∧
      UniqueIds (updateUserData env req id s).2) :=
  ⟨fun req => ⟨createTestData_live env req s hL, createTestData_owned env req s hE hU⟩,
   fun id => ⟨fun hw => deleteTestData_live env id s hL hE hU hw,
     deleteTestData_owned env id s hE hU⟩,
   fun req id => ⟨fun hc hv => updateTestData_live env req id s hL hE hc hv,
     updateTestData_owned env req id s hE hU⟩,
   fun req => ⟨CreateUserData_live env req s hL, CreateUserData_owned env req s hE hU⟩,
   fun id => ⟨fun hw => deleteUserData_live env id s hL hE hU hw,
     deleteUserData_owned env id s hE hU⟩,
   fun req id => ⟨fun hc hv => updateUserData_live env req id s hL hE hc hv,
     updateUserData_owned env req id s hE hU⟩⟩

/-- C7, witness: on the sample store, a create, a delete and an update with a
new attachment `c` each leave a store in which every record names only held
objects, no object is listed twice and ids are unique. -/
theorem asset_liveness_witness :
    Live sampleStore ∧ Exclusive sampleStore ∧ UniqueIds sampleStore ∧
    (Live (createTestData sampleEnv (sampleTestReq "gadget" (.array [sampleFile "c"]))
        sampleStore).2 ∧
      Exclusive (createTestData sampleEnv (sampleTestReq "gadget" (.array [sampleFile "c"]))
        sampleStore).2 ∧
      UniqueIds (createTestData sampleEnv (sampleTestReq "gadget" (.array [sampleFile "c"]))
        sampleStore).2) ∧
    Live (deleteUserData sampleEnv "00000000000000000000000b" sampleStore).2 ∧
    (Live (updateTestData sampleEnv (sampleTestReq "gizmo" (.array [sampleFile "c"]))
        "00000000000000000000000a" sampleStore).2 ∧
      Exclusive (updateTestData sampleEnv (sampleTestReq "gizmo" (.array [sampleFile "c"]))
        "00000000000000000000000a" sampleStore).2) := by
  have h := asset_liveness sampleEnv sampleStore (by decide) (by decide) (by decide)
  have hc := h.1 (sampleTestReq "gadget" (.array [sampleFile "c"]))
  have hd := h.2.2.2.2.1 "00000000000000000000000b"
  have hu := h.2.2.1 (sampleTestReq "gizmo" (.array [sampleFile "c"]))
    "00000000000000000000000a"
  refine ⟨by decide, by decide, by decide, ⟨hc.1, hc.2.1 (by rfl), hc.2.2 (by decide)⟩,
    hd.1 (by rfl), hu.1 ?_ (Or.inr ⟨?_, ?_⟩), hu.2.1 (by rfl)⟩
  · intro old hold
    have hsame : old = { _id := sampleId "a", test := "widget",
                         image := [sampleImage "a"] } :=
      (Option.some.inj hold).symm
    subst hsame
    rfl
  · have hres : (updateTestData sampleEnv (sampleTestReq "gizmo" (.array [sampleFile "c"]))
        "00000000000000000000000a" sampleStore).1
        = .ok { _id := sampleId "a", test := "gizmo",
                image := [{ public_id := "c", url := "https://assets/c",
                            originalname := "c.png" }] } := rfl
    rw [hres]
    simp
  · have hres : (updateTestData sampleEnv (sampleTestReq "gizmo" (.array [sampleFile "c"]))
        "00000000000000000000000a" sampleStore).1
        = .ok { _id := sampleId "a", test := "gizmo",
                image := [{ public_id := "c", url := "https://assets/c",
                            originalname := "c.png" }] } := rfl
    rw [hres]
    simp

end DemoApi
